import Mathlib

/-
Verification of the Athena hybrid-retrieval core.

This file gives a shallow embedding, in Lean 4, of the algorithmic core of
the Athena RAG repository (src/local_rag.py, src/pdf_processor.py,
src/utils/llm_cache.py, src/services/query_service.py) and proves, or
refutes, the stated properties of that code.

Modelling conventions:
- Python floats are modelled by rationals; the value NaN / +inf / -inf is
  modelled by a dedicated non-finite marker (the code only ever asks
  "isfinite(d)" of a float before using it, so the individual non-finite
  values never need to be distinguished).
- Python dicts used as insertion-ordered maps (the `combined` dict of
  hybrid_search, the Chroma collection keyed by chunk id) are modelled as
  association lists in insertion order: assignment to an existing key
  replaces the value in place, assignment to a fresh key appends.
- Python's stable sort (list.sort / sorted with reverse=True) is modelled
  by List.insertionSort with the non-strict "greater or equal on the key"
  relation, which places an element being inserted before the equal-keyed
  elements already sorted - exactly the stable descending order Python
  guarantees.
- Calls into external libraries (Chroma queries, the sentence-transformer
  embedder, BM25Okapi scoring) are oracle inputs to the model: the model
  receives the values such a call returned, or the fact that it raised.
- Python strings are modelled by Lean String / List Char.
-/

namespace Athena

attribute [local semireducible] Rat.mul Rat.add Rat.sub Rat.inv

/-! ## Python float model -/

/-- A Python float as used by local_rag.py: either a finite value (modelled
exactly by a rational) or a non-finite value (NaN or an infinity). -/
inductive PyFloat where
  | fin (q : ℚ) : PyFloat
  | nonfin : PyFloat
  deriving DecidableEq, Repr

/-- math.isfinite. -/
def PyFloat.isfinite : PyFloat → Bool
  | .fin _ => true
  | .nonfin => false

/-- Python max(l) for a nonempty list, with a fallback value for the empty
list: max(l or [fallback]). -/
def pyMaxOr (l : List ℚ) (fallback : ℚ) : ℚ :=
  match l with
  | [] => fallback
  | x :: xs => xs.foldl max x

/-- Python min(l or [fallback]). -/
def pyMinOr (l : List ℚ) (fallback : ℚ) : ℚ :=
  match l with
  | [] => fallback
  | x :: xs => xs.foldl min x

/-- The finite values of a distance list, in order: [d for d in distances
if isfinite(d)]. -/
def finiteVals (ds : List PyFloat) : List ℚ :=
  ds.filterMap fun d => match d with
    | .fin q => some q
    | .nonfin => none

/-- MergedLocalRAG._normalize_similarity from src/local_rag.py lines
186-201: min-max inversion of distances into similarities, clamped to
[0,1], with non-finite distances mapped to 0 and the denominator replaced
by 1.0 when max equals min. -/
def _normalize_similarity (distances : List PyFloat) : List ℚ :=
  let max_d := pyMaxOr (finiteVals distances) 1
  let min_d := pyMinOr (finiteVals distances) 0
  let denom := if max_d ≠ min_d then max_d - min_d else 1
  distances.map fun d =>
    match d with
    | .nonfin => 0
    | .fin q => min 1 (max 0 (1 - (q - min_d) / denom))

/-! ### Lemmas about the normalizer -/

lemma finiteVals_all_eq {l : List PyFloat} {q : ℚ}
    (h : ∀ d ∈ l, d = PyFloat.fin q) :
    finiteVals l = List.replicate l.length q := by
  induction l with
  | nil => rfl
  | cons a t ih =>
      have ha : a = PyFloat.fin q := h a (List.mem_cons_self a t)
      have ht : ∀ d ∈ t, d = PyFloat.fin q := fun d hd => h d (List.mem_cons_of_mem a hd)
      simp [finiteVals, ha, List.replicate_succ] at ih ⊢
      exact ih ht

lemma foldl_max_replicate (n : Nat) (q : ℚ) :
    (List.replicate n q).foldl max q = q := by
  induction n with
  | zero => rfl
  | succ m ih => simpa [List.replicate_succ, max_self] using ih

lemma foldl_min_replicate (n : Nat) (q : ℚ) :
    (List.replicate n q).foldl min q = q := by
  induction n with
  | zero => rfl
  | succ m ih => simpa [List.replicate_succ, min_self] using ih

lemma pyMaxOr_replicate_succ (n : Nat) (q f : ℚ) :
    pyMaxOr (List.replicate (n + 1) q) f = q := by
  simp [pyMaxOr, List.replicate_succ, foldl_max_replicate]

lemma pyMinOr_replicate_succ (n : Nat) (q f : ℚ) :
    pyMinOr (List.replicate (n + 1) q) f = q := by
  simp [pyMinOr, List.replicate_succ, foldl_min_replicate]

lemma normalize_similarity_length (l : List PyFloat) :
    (_normalize_similarity l).length = l.length := by
  simp [_normalize_similarity]

lemma normalize_similarity_mem_bounds (l : List PyFloat) :
    ∀ s ∈ _normalize_similarity l, 0 ≤ s ∧ s ≤ 1 := by
  intro s hs
  simp only [_normalize_similarity, List.mem_map] at hs
  obtain ⟨d, _, hd⟩ := hs
  cases d with
  | nonfin => simp at hd; simp [← hd]
  | fin q =>
      simp only at hd
      constructor
      · rw [← hd]; exact le_min (by norm_num) (le_max_left 0 _)
      · rw [← hd]; exact min_le_left 1 _

lemma normalize_similarity_all_one {l : List PyFloat} {q : ℚ}
    (hne : l ≠ []) (h : ∀ d ∈ l, d = PyFloat.fin q) :
    ∀ s ∈ _normalize_similarity l, s = 1 := by
  obtain ⟨a, t, rfl⟩ := List.exists_cons_of_ne_nil hne
  have hrepl := finiteVals_all_eq h
  intro s hs
  simp only [_normalize_similarity, hrepl, List.length_cons,
    pyMaxOr_replicate_succ, pyMinOr_replicate_succ, List.mem_map] at hs
  obtain ⟨d, hmem, hd⟩ := hs
  have hdq := h d hmem
  subst hdq
  rw [← hd]
  simp

lemma zip_map_eval {α β : Type} (g : α → β) (z : β) (P : α → Prop)
    (hg : ∀ a, P a → g a = z) :
    ∀ (l : List α), ∀ p ∈ l.zip (l.map g), P p.1 → p.2 = z := by
  intro l
  induction l with
  | nil => simp
  | cons a t ih =>
      intro p hp hPa
      simp only [List.map_cons, List.zip_cons_cons, List.mem_cons] at hp
      rcases hp with rfl | hp
      · exact hg a hPa
      · exact ih p hp hPa

lemma normalize_similarity_nonfin (l : List PyFloat) :
    ∀ p ∈ l.zip (_normalize_similarity l), p.1 = PyFloat.nonfin → p.2 = 0 := by
  rw [_normalize_similarity]
  exact zip_map_eval _ 0 (fun d => d = PyFloat.nonfin) (by rintro a rfl; rfl) l

/-- C1, counterexample. The claim says that whenever all distances in the
list are equal, every derived similarity equals 1.0.  The list consisting
of two non-finite distances (for example two +inf values, which compare
equal in Python) has all its elements equal, yet `_normalize_similarity`
maps both to 0, not 1: the non-finite rule wins over the all-equal rule. -/
theorem claim_C1_counterexample :
    ([PyFloat.nonfin, PyFloat.nonfin] : List PyFloat) ≠ [] ∧
    (∀ a ∈ ([PyFloat.nonfin, PyFloat.nonfin] : List PyFloat),
      ∀ b ∈ ([PyFloat.nonfin, PyFloat.nonfin] : List PyFloat), a = b) ∧
    ¬ (∀ s ∈ _normalize_similarity [PyFloat.nonfin, PyFloat.nonfin], s = 1) := by
  refine ⟨by simp, by decide, ?_⟩
  intro hall
  have h0 : (0 : ℚ) ∈ _normalize_similarity [PyFloat.nonfin, PyFloat.nonfin] := by
    decide
  exact absurd (hall 0 h0) (by norm_num)

/-- C1, amended. For every non-empty distance list: every similarity
produced by `_normalize_similarity` lies in [0,1]; if all distances are
equal AND finite, every similarity equals 1.0 (the denominator is guarded
against division by zero); the output has one similarity per distance, and
every non-finite distance maps to similarity 0. -/
theorem claim_C1_normalize_similarity (l : List PyFloat) (hne : l ≠ []) :
    (∀ s ∈ _normalize_similarity l, 0 ≤ s ∧ s ≤ 1) ∧
    (∀ q : ℚ, (∀ d ∈ l, d = PyFloat.fin q) → ∀ s ∈ _normalize_similarity l, s = 1) ∧
    (_normalize_similarity l).length = l.length ∧
    (∀ p ∈ l.zip (_normalize_similarity l), p.1 = PyFloat.nonfin → p.2 = 0) :=
  ⟨normalize_similarity_mem_bounds l,
   fun _ h => normalize_similarity_all_one hne h,
   normalize_similarity_length l,
   normalize_similarity_nonfin l⟩

/-- Witness for C1 at the concrete distance list [1, nonfinite, 3]. -/
theorem claim_C1_witness :
    (∀ s ∈ _normalize_similarity [PyFloat.fin 1, PyFloat.nonfin, PyFloat.fin 3],
      0 ≤ s ∧ s ≤ 1) ∧
    (∀ q : ℚ,
      (∀ d ∈ ([PyFloat.fin 1, PyFloat.nonfin, PyFloat.fin 3] : List PyFloat),
        d = PyFloat.fin q) →
      ∀ s ∈ _normalize_similarity [PyFloat.fin 1, PyFloat.nonfin, PyFloat.fin 3], s = 1) ∧
    (_normalize_similarity [PyFloat.fin 1, PyFloat.nonfin, PyFloat.fin 3]).length =
      ([PyFloat.fin 1, PyFloat.nonfin, PyFloat.fin 3] : List PyFloat).length ∧
    (∀ p ∈ ([PyFloat.fin 1, PyFloat.nonfin, PyFloat.fin 3] : List PyFloat).zip
        (_normalize_similarity [PyFloat.fin 1, PyFloat.nonfin, PyFloat.fin 3]),
      p.1 = PyFloat.nonfin → p.2 = 0) :=
  claim_C1_normalize_similarity [PyFloat.fin 1, PyFloat.nonfin, PyFloat.fin 3] (by simp)

/-! ## Decimal rendering of naturals

Python renders the page and chunk numbers into the candidate id with
str(n).  The rendering is modelled by a fuel-based decimal printer so that
it is structurally recursive (and hence evaluates inside kernel-checked
decision procedures). -/

/-- Fuel-based decimal digit list of a natural number, most significant
digit first.  The fuel argument strictly dominates the number. -/
def digitsAux : Nat → Nat → List Char
  | 0, _ => []
  | fuel + 1, n =>
    if n < 10 then [Nat.digitChar n]
    else digitsAux fuel (n / 10) ++ [Nat.digitChar (n % 10)]

/-- Decimal digits of a natural number, as characters. -/
def natDigits (n : Nat) : List Char := digitsAux (n + 1) n

/-- Python str(n) for a natural number. -/
def natRepr (n : Nat) : String := ⟨natDigits n⟩

lemma digitsAux_fuel_irrel (n : Nat) :
    ∀ f1 f2, n < f1 → n < f2 → digitsAux f1 n = digitsAux f2 n := by
  induction n using Nat.strong_induction_on with
  | _ n ih =>
    intro f1 f2 h1 h2
    obtain ⟨g1, rfl⟩ : ∃ g, f1 = g + 1 := ⟨f1 - 1, by omega⟩
    obtain ⟨g2, rfl⟩ : ∃ g, f2 = g + 1 := ⟨f2 - 1, by omega⟩
    simp only [digitsAux]
    by_cases h : n < 10
    · simp [h]
    · simp only [if_neg h]
      have hdiv : n / 10 < n := Nat.div_lt_self (by omega) (by omega)
      rw [ih (n / 10) hdiv g1 g2 (by omega) (by omega)]

lemma natDigits_eq (n : Nat) :
    natDigits n =
      if n < 10 then [Nat.digitChar n]
      else natDigits (n / 10) ++ [Nat.digitChar (n % 10)] := by
  show digitsAux (n + 1) n = _
  rw [digitsAux]
  by_cases h : n < 10
  · simp [h]
  · simp only [if_neg h]
    have hdiv : n / 10 < n := Nat.div_lt_self (by omega) (by omega)
    rw [digitsAux_fuel_irrel (n / 10) n (n / 10 + 1) (by omega) (by omega)]
    rfl

lemma digitChar_isDigit {d : Nat} (h : d < 10) : (Nat.digitChar d).isDigit = true := by
  interval_cases d <;> decide

lemma natDigits_all_digit (n : Nat) : ∀ c ∈ natDigits n, c.isDigit = true := by
  induction n using Nat.strong_induction_on with
  | _ n ih =>
    rw [natDigits_eq]
    by_cases h : n < 10
    · simp only [if_pos h, List.mem_singleton]
      rintro c rfl
      exact digitChar_isDigit h
    · simp only [if_neg h, List.mem_append, List.mem_singleton]
      rintro c (hc | rfl)
      · exact ih (n / 10) (Nat.div_lt_self (by omega) (by omega)) c hc
      · exact digitChar_isDigit (Nat.mod_lt n (by omega))

/-- Numeric value of a decimal digit character. -/
def digitVal (c : Char) : Nat := c.toNat - 48

/-- Value of a most-significant-first decimal digit list. -/
def ofDigits (l : List Char) : Nat := l.foldl (fun a c => 10 * a + digitVal c) 0

lemma digitVal_digitChar {d : Nat} (h : d < 10) : digitVal (Nat.digitChar d) = d := by
  interval_cases d <;> rfl

lemma ofDigits_append_singleton (l : List Char) (c : Char) :
    ofDigits (l ++ [c]) = 10 * ofDigits l + digitVal c := by
  simp [ofDigits, List.foldl_append]

lemma ofDigits_natDigits (n : Nat) : ofDigits (natDigits n) = n := by
  induction n using Nat.strong_induction_on with
  | _ n ih =>
    rw [natDigits_eq]
    by_cases h : n < 10
    · simp only [if_pos h, ofDigits, List.foldl_cons, List.foldl_nil]
      rw [digitVal_digitChar h]
      omega
    · simp only [if_neg h]
      rw [ofDigits_append_singleton,
        ih (n / 10) (Nat.div_lt_self (by omega) (by omega)),
        digitVal_digitChar (Nat.mod_lt n (by omega))]
      omega

lemma natDigits_injective {a b : Nat} (h : natDigits a = natDigits b) : a = b := by
  have := congrArg ofDigits h
  rwa [ofDigits_natDigits, ofDigits_natDigits] at this

/-! ## Chunk metadata and the candidate id -/

/-- The metadata dict attached to every stored chunk (src/local_rag.py
lines 102-110) and carried through search.  Every field is optional
because the search code reads each one with dict.get and a default. -/
structure Metadata where
  file_name : Option String
  file_path : Option String
  subject : Option String
  module : Option String
  page_number : Option Nat
  chunk_number : Option Nat
  total_pages : Option Nat
  deriving DecidableEq, Repr

/-- The empty metadata dict, used by hybrid_search when a BM25 index entry
has no stored metadata. -/
def Metadata.empty : Metadata := ⟨none, none, none, none, none, none, none⟩

/-- Rendering of md.get(field, the string "0") followed by an f-string:
a present number renders as str(n), an absent one as "0". -/
def optNatField : Option Nat → String
  | some n => natRepr n
  | none => "0"

/-- The candidate id built by hybrid_search (src/local_rag.py lines 239 and
269): file_name, page number and chunk number joined with the separators
"_p" and "_c". -/
def docId (md : Metadata) : String :=
  (md.file_name.getD "unk") ++ "_p" ++ optNatField md.page_number ++ "_c"
    ++ optNatField md.chunk_number

/-- The identifying triple of a candidate, with the dict.get defaults
applied: file name, page number, chunk number. -/
def keyTriple (md : Metadata) : String × Nat × Nat :=
  (md.file_name.getD "unk", md.page_number.getD 0, md.chunk_number.getD 0)

lemma optNatField_eq_natRepr (o : Option Nat) : optNatField o = natRepr (o.getD 0) := by
  cases o <;> rfl

lemma count_underscore_of_all_digit {l : List Char}
    (h : ∀ c ∈ l, c.isDigit = true) : l.count '_' = 0 := by
  rw [List.count_eq_zero]
  intro hmem
  have := h _ hmem
  simp at this

lemma append_cons_underscore_inj {fa fb sa sb : List Char}
    (h : fa ++ '_' :: sa = fb ++ '_' :: sb)
    (hcount : sa.count '_' = sb.count '_') :
    fa = fb ∧ sa = sb := by
  rcases List.append_eq_append_iff.mp h with ⟨v, hv1, hv2⟩ | ⟨v, hv1, hv2⟩
  · cases v with
    | nil => exact ⟨by simpa using hv1.symm, by simpa using hv2⟩
    | cons x v =>
        obtain ⟨rfl, hsa⟩ : x = '_' ∧ sa = v ++ '_' :: sb := by
          constructor
          · exact (List.cons.injEq _ _ _ _ ▸ hv2).1.symm
          · exact (List.cons.injEq _ _ _ _ ▸ hv2).2
        have : sa.count '_' = v.count '_' + 1 + sb.count '_' := by
          simp [hsa, List.count_append]
          ring
        omega
  · cases v with
    | nil => exact ⟨by simpa using hv1, by simpa using hv2.symm⟩
    | cons x v =>
        obtain ⟨rfl, hsb⟩ : x = '_' ∧ sb = v ++ '_' :: sa := by
          constructor
          · exact (List.cons.injEq _ _ _ _ ▸ hv2).1.symm
          · exact (List.cons.injEq _ _ _ _ ▸ hv2).2
        have : sb.count '_' = v.count '_' + 1 + sa.count '_' := by
          simp [hsb, List.count_append]
          ring
        omega

lemma string_append_data (s t : String) : (s ++ t).data = s.data ++ t.data :=
  String.data_append s t

lemma docId_data (md : Metadata) :
    (docId md).data =
      (md.file_name.getD "unk").data ++
        '_' :: 'p' :: (natDigits (md.page_number.getD 0) ++
          '_' :: 'c' :: natDigits (md.chunk_number.getD 0)) := by
  simp only [docId, optNatField_eq_natRepr, string_append_data]
  show _ ++ ['_', 'p'] ++ natDigits _ ++ ['_', 'c'] ++ natDigits _ = _
  simp

/-- Distinct identifying triples produce distinct candidate ids: the
encoding f ++ "_p" ++ str(p) ++ "_c" ++ str(c) is injective because the
numeric parts contain no underscore. -/
theorem docId_inj_on_keyTriple (m1 m2 : Metadata)
    (h : docId m1 = docId m2) : keyTriple m1 = keyTriple m2 := by
  have hd := congrArg String.data h
  rw [docId_data, docId_data] at hd
  have c1 : ∀ n : Nat,
      ('p' :: (natDigits n ++ '_' :: 'c' :: natDigits (Metadata.chunk_number m1 |>.getD 0))).count '_' = 1 := by
    intro n
    have h1 := count_underscore_of_all_digit (natDigits_all_digit n)
    have h2 := count_underscore_of_all_digit
      (natDigits_all_digit (Metadata.chunk_number m1 |>.getD 0))
    simp [List.count_cons, List.count_append, h1, h2]
  have c2 : ∀ n : Nat,
      ('p' :: (natDigits n ++ '_' :: 'c' :: natDigits (Metadata.chunk_number m2 |>.getD 0))).count '_' = 1 := by
    intro n
    have h1 := count_underscore_of_all_digit (natDigits_all_digit n)
    have h2 := count_underscore_of_all_digit
      (natDigits_all_digit (Metadata.chunk_number m2 |>.getD 0))
    simp [List.count_cons, List.count_append, h1, h2]
  obtain ⟨hf, hrest⟩ := append_cons_underscore_inj hd
    (by rw [c1 (m1.page_number.getD 0), c2 (m2.page_number.getD 0)])
  have hrest2 : natDigits (m1.page_number.getD 0) ++
      '_' :: 'c' :: natDigits (m1.chunk_number.getD 0) =
      natDigits (m2.page_number.getD 0) ++
      '_' :: 'c' :: natDigits (m2.chunk_number.getD 0) := by
    exact (List.cons.injEq _ _ _ _ ▸ hrest).2
  obtain ⟨hp, hc⟩ := append_cons_underscore_inj hrest2
    (by
      have h1 := count_underscore_of_all_digit
        (natDigits_all_digit (m1.chunk_number.getD 0))
      have h2 := count_underscore_of_all_digit
        (natDigits_all_digit (m2.chunk_number.getD 0))
      simp [List.count_cons, h1, h2])
  have hcnum : natDigits (m1.chunk_number.getD 0) = natDigits (m2.chunk_number.getD 0) :=
    (List.cons.injEq _ _ _ _ ▸ hc).2
  have hfile : (m1.file_name.getD "unk") = (m2.file_name.getD "unk") := by
    have ha := m1.file_name.getD "unk"
    cases hA : m1.file_name.getD "unk" with
    | mk da =>
      cases hB : m2.file_name.getD "unk" with
      | mk db =>
        rw [hA, hB] at hf
        exact congrArg String.mk (by simpa using hf)
  simp only [keyTriple, hfile, natDigits_injective hp, natDigits_injective hcnum]

/-! ## Insertion-ordered dict model

Python dicts preserve insertion order; assigning to an existing key
replaces the value in place, assigning to a fresh key appends. -/

/-- Assignment d[k] = v on an insertion-ordered dict. -/
def dictSet {α : Type} : List (String × α) → String → α → List (String × α)
  | [], k, v => [(k, v)]
  | (k0, v0) :: rest, k, v =>
    if k0 = k then (k, v) :: rest else (k0, v0) :: dictSet rest k v

/-- Lookup d.get(k) on an insertion-ordered dict. -/
def dictLookup {α : Type} : List (String × α) → String → Option α
  | [], _ => none
  | (k0, v0) :: rest, k => if k0 = k then some v0 else dictLookup rest k

/-- Key list of an insertion-ordered dict. -/
def dictKeys {α : Type} (l : List (String × α)) : List String := l.map Prod.fst

/-! ## The hybrid_search model (src/local_rag.py lines 203-299) -/

/-- A Python exception value, as far as the model needs to distinguish: the
IndexError the BM25 corpus lookup can raise, and any other exception an
oracle call reports. -/
inductive PyErr where
  | indexError : PyErr
  | other (msg : String) : PyErr
  deriving DecidableEq, Repr

/-- Decidable equality of Except values, used to evaluate the model on
concrete inputs. -/
instance {e a : Type} [DecidableEq e] [DecidableEq a] : DecidableEq (Except e a) := fun x y =>
  match x, y with
  | .ok u, .ok v =>
      if h : u = v then .isTrue (by rw [h]) else .isFalse (fun hh => h (Except.ok.inj hh))
  | .error u, .error v =>
      if h : u = v then .isTrue (by rw [h]) else .isFalse (fun hh => h (Except.error.inj hh))
  | .ok _, .error _ => .isFalse (fun hh => Except.noConfusion hh)
  | .error _, .ok _ => .isFalse (fun hh => Except.noConfusion hh)

/-- Python l[i] on a list: the element, or an IndexError. -/
def listGetExc {α : Type} (l : List α) (i : Nat) : Except PyErr α :=
  match l.get? i with
  | some a => .ok a
  | none => .error .indexError

/-- Python truthiness of an optional-string argument (None and the empty
string are falsy). -/
def pyTruthy : Option String → Bool
  | none => false
  | some s => s ≠ ""

/-- Helper _safe_get_first from src/local_rag.py lines 19-24, applied to
the nested per-query lists Chroma returns: take the first inner list, or
the empty list. -/
def _safe_get_first {α : Type} (lst : List (List α)) : List α := lst.headD []

/-- The raw response of collection.query: nested per-query lists of
documents, metadatas and distances.  This is an oracle input to the model
(Chroma is an external library). -/
structure SemanticRaw where
  documents : List (List String)
  metadatas : List (List Metadata)
  distances : List (List PyFloat)
  deriving DecidableEq, Repr

/-- The BM25 side state at use time: the scores get_scores returned for
this query (one per indexed document), the indexed corpus and its
metadata.  An absent value models self.bm25 being None (possibly after a
failed or empty rebuild). -/
structure Bm25Index where
  scores : List ℚ
  corpus : List String
  metadata : List Metadata
  deriving DecidableEq, Repr

/-- One search candidate as built inside hybrid_search.  The hybrid_score
field holds 0 until the scoring pass assigns it (the Python dict simply
lacks the key until then, and never reads it before assigning it). -/
structure Candidate where
  document : String
  metadata : Metadata
  semantic_score : ℚ
  bm25_score : ℚ
  hybrid_score : ℚ
  deriving DecidableEq, Repr

/-- One entry of the bm25_candidates list (src/local_rag.py line 262). -/
structure Bm25Candidate where
  idx : Nat
  score : ℚ
  meta : Metadata
  doc : String
  deriving DecidableEq, Repr

/-- The dict returned by hybrid_search.  The semantic_scores and
bm25_scores keys are present only on the success path, hence optional. -/
structure SearchResult where
  documents : List String
  metadatas : List Metadata
  scores : List ℚ
  semantic_scores : Option (List ℚ)
  bm25_scores : Option (List ℚ)
  query : String
  total_results : Nat
  deriving DecidableEq, Repr

/-- The semantic loop of hybrid_search (lines 237-245): each (document,
metadata, semantic score) triple is written into the combined dict under
its candidate id, with bm25_score 0. -/
def addSemanticCandidates (combined : List (String × Candidate))
    (triples : List (String × (Metadata × ℚ))) : List (String × Candidate) :=
  triples.foldl
    (fun acc t => dictSet acc (docId t.2.1) ⟨t.1, t.2.1, t.2.2, 0, 0⟩) combined

/-- The bm25_candidates loop of hybrid_search (lines 255-262): pair each
score with its metadata (empty dict when the metadata list is short),
apply the subject and module filters, and fetch the document text from the
corpus, which raises IndexError past the end. -/
def buildBm25Candidates (metas : List Metadata) (corpus : List String)
    (subject_filter module_filter : Option String) :
    List (Nat × ℚ) → Except PyErr (List Bm25Candidate)
  | [] => .ok []
  | (idx, score) :: rest =>
    let md := metas.getD idx Metadata.empty
    if pyTruthy subject_filter && decide (md.subject ≠ subject_filter) then
      buildBm25Candidates metas corpus subject_filter module_filter rest
    else if pyTruthy module_filter && decide (md.module ≠ module_filter) then
      buildBm25Candidates metas corpus subject_filter module_filter rest
    else
      match listGetExc corpus idx with
      | .error e => .error e
      | .ok doc =>
        match buildBm25Candidates metas corpus subject_filter module_filter rest with
        | .error e => .error e
        | .ok cs => .ok (⟨idx, score, md, doc⟩ :: cs)

/-- Stable descending order on BM25 candidates by raw score, the order
list.sort(key=score, reverse=True) produces. -/
def bmGE (a b : Bm25Candidate) : Prop := b.score ≤ a.score

instance : DecidableRel bmGE := fun a b => inferInstanceAs (Decidable (_ ≤ _))

/-- The BM25 merge loop of hybrid_search (lines 266-279): normalize each
top candidate score by the maximum of the top set and merge it into the
combined dict under its candidate id. -/
def applyBm25 (combined : List (String × Candidate)) (top : List Bm25Candidate)
    (max_b : ℚ) : List (String × Candidate) :=
  top.foldl
    (fun acc c =>
      let doc_id := docId c.meta
      let normalized := if 0 < max_b then c.score / max_b else 0
      match dictLookup acc doc_id with
      | some v => dictSet acc doc_id
          { v with bm25_score := normalized }
      | none => dictSet acc doc_id ⟨c.doc, c.meta, 0, normalized, 0⟩)
    combined

/-- The hybrid scoring pass of hybrid_search (lines 282-283). -/
def applyHybrid (combined : List (String × Candidate)) (w : ℚ) :
    List (String × Candidate) :=
  combined.map fun kv =>
    (kv.1, { kv.2 with
      hybrid_score := w * kv.2.semantic_score + (1 - w) * kv.2.bm25_score })

/-- Stable descending order on candidates by hybrid score, the order
sorted(key=hybrid_score, reverse=True) produces. -/
def candGE (a b : Candidate) : Prop := b.hybrid_score ≤ a.hybrid_score

instance : DecidableRel candGE := fun a b => inferInstanceAs (Decidable (_ ≤ _))

/-- The final ranking of hybrid_search (line 285): stable sort of the
combined values by hybrid score descending, truncated to n_results. -/
def rankCandidates (values : List Candidate) (n_results : Nat) : List Candidate :=
  (List.insertionSort candGE values).take n_results

/-- The semantic candidate triples of hybrid_search (lines 229-237): the
per-query document, metadata and normalized-similarity lists zipped
together (Python zip truncates to the shortest list). -/
def semTriples (raw : SemanticRaw) : List (String × (Metadata × ℚ)) :=
  let sem_docs := _safe_get_first raw.documents
  let sem_mds := _safe_get_first raw.metadatas
  let sem_dists := _safe_get_first raw.distances
  let semantic_scores := _normalize_similarity
    (if sem_dists = [] then List.replicate sem_docs.length (PyFloat.fin 0) else sem_dists)
  sem_docs.zip (sem_mds.zip semantic_scores)

/-- The top BM25 set of hybrid_search (lines 255-264): build the filtered
candidate list, sort it by raw score descending (stably), and keep the
first 3 times n_results entries. -/
def bm25TopSet (idx : Bm25Index) (n_results : Nat)
    (subject_filter module_filter : Option String) :
    Except PyErr (List Bm25Candidate) := do
  let cands ← buildBm25Candidates idx.metadata idx.corpus
    subject_filter module_filter idx.scores.enum
  pure ((List.insertionSort bmGE cands).take (n_results * 3))

/-- The fused and scored candidate dict of hybrid_search (lines 217-283):
semantic pass, BM25 merge pass, hybrid scoring pass. -/
def hybridFused (semRaw : Except PyErr SemanticRaw) (enable_bm25 : Bool)
    (bm25 : Option Bm25Index) (n_results : Nat)
    (subject_filter module_filter : Option String) (semantic_weight : ℚ) :
    Except PyErr (List (String × Candidate)) := do
  let raw ← semRaw
  let combined0 := addSemanticCandidates [] (semTriples raw)
  let combined ←
    if enable_bm25 then
      match bm25 with
      | some idx => do
          let top_bm25 ← bm25TopSet idx n_results subject_filter module_filter
          let max_b := pyMaxOr (top_bm25.map Bm25Candidate.score) 1
          pure (applyBm25 combined0 top_bm25 max_b)
      | none => pure combined0
    else pure combined0
  pure (applyHybrid combined semantic_weight)

/-- The success dict of hybrid_search (lines 287-295), built from the
ranked candidate list. -/
def mkSearchResult (ranked : List Candidate) (query : String) : SearchResult :=
  { documents := ranked.map Candidate.document
    metadatas := ranked.map Candidate.metadata
    scores := ranked.map Candidate.hybrid_score
    semantic_scores := some (ranked.map Candidate.semantic_score)
    bm25_scores := some (ranked.map Candidate.bm25_score)
    query := query
    total_results := ranked.length }

/-- The body of hybrid_search inside its try block.  The collection.query
response (or the exception it raised) and the BM25 state are oracle
inputs; everything after them is the source algorithm. -/
def hybridSearchCore (semRaw : Except PyErr SemanticRaw) (enable_bm25 : Bool)
    (bm25 : Option Bm25Index) (query : String) (n_results : Nat)
    (subject_filter module_filter : Option String) (semantic_weight : ℚ) :
    Except PyErr SearchResult := do
  let scored ← hybridFused semRaw enable_bm25 bm25 n_results
    subject_filter module_filter semantic_weight
  pure (mkSearchResult (rankCandidates (scored.map Prod.snd) n_results) query)

/-- The dict hybrid_search returns from its catch-all except branch
(src/local_rag.py line 299): empty lists, total_results 0, and no
semantic_scores or bm25_scores keys. -/
def failureResult (query : String) : SearchResult :=
  ⟨[], [], [], none, none, query, 0⟩

/-- MergedLocalRAG.hybrid_search, src/local_rag.py lines 203-299: run the
body and, if any exception escapes it, return the silent empty-result
dict instead.  The default semantic weight in the source signature is
0.7. -/
def hybrid_search (semRaw : Except PyErr SemanticRaw) (enable_bm25 : Bool)
    (bm25 : Option Bm25Index) (query : String) (n_results : Nat)
    (subject_filter module_filter : Option String)
    (semantic_weight : ℚ := 7 / 10) : SearchResult :=
  match hybridSearchCore semRaw enable_bm25 bm25 query n_results
      subject_filter module_filter semantic_weight with
  | .ok r => r
  | .error _ => failureResult query

/-! ## The chunker (src/pdf_processor.py lines 11-111) -/

/-- Python str.split at every character satisfying p, keeping empty parts
(the behaviour of str.split(sep) for a one-character separator). -/
def splitKeepEmpty (p : Char → Bool) : List Char → List Char → List (List Char)
  | [], acc => [acc.reverse]
  | c :: rest, acc =>
    if p c then acc.reverse :: splitKeepEmpty p rest []
    else splitKeepEmpty p rest (c :: acc)

/-- Python str.strip(): remove whitespace from both ends. -/
def pyStrip (l : List Char) : List Char :=
  ((l.dropWhile Char.isWhitespace).reverse.dropWhile Char.isWhitespace).reverse

/-- Sentence terminator characters of the regex [.!?]+ (line 68). -/
def isSentenceEnd (c : Char) : Bool := c = '.' || c = '!' || c = '?'

/-- Lines 68-69: split the text at sentence terminators, strip each part
and drop the empty ones.  Splitting at every single terminator and then
dropping empties is observationally the behaviour of the regex [.!?]+,
whose runs of terminators only add empty parts. -/
def sentenceSplit (text : List Char) : List (List Char) :=
  ((splitKeepEmpty isSentenceEnd text []).map pyStrip).filter fun s => !s.isEmpty

/-- Python gives the string ". " dot-space as join separator (line 80). -/
def joinDotSpace : List (List Char) → List Char
  | [] => []
  | [x] => x
  | x :: xs => x ++ '.' :: ' ' :: joinDotSpace xs

/-- Python l[-2:]. -/
def lastTwo {α : Type} (l : List α) : List α := l.drop (l.length - 2)

/-- One iteration of the sentence loop of semantic_chunking (lines
74-82): when adding the sentence would exceed chunk_size and the buffer
is non-empty, emit the stripped buffer and seed the new buffer with the
last two '.'-separated segments of the old buffer; otherwise append the
sentence to the buffer. -/
def chunkStep (chunk_size : Nat) (st : List (List Char) × List Char)
    (sentence : List Char) : List (List Char) × List Char :=
  if st.2.length + sentence.length > chunk_size ∧ st.2 ≠ [] then
    (st.1 ++ [pyStrip st.2],
     joinDotSpace (lastTwo (splitKeepEmpty (fun c => c = '.') st.2 [])) ++
       '.' :: ' ' :: sentence)
  else
    (st.1, if st.2 = [] then sentence else st.2 ++ ' ' :: sentence)

/-- PDFProcessor.semantic_chunking (lines 65-87).  The chunk_overlap
parameter is accepted (the method reads self on a processor constructed
with both chunk_size and chunk_overlap) but the body never uses it: the
overlap seeded into a new buffer is always the last two '.'-separated
segments of the emitted chunk. -/
def semantic_chunking (chunk_size chunk_overlap : Nat) (text : List Char) :
    List (List Char) :=
  let sentences := sentenceSplit text
  let st := sentences.foldl (chunkStep chunk_size) ([], [])
  if st.2 ≠ [] then st.1 ++ [pyStrip st.2] else st.1

/-- PDFProcessor.__init__ (lines 12-14): construction parameters with
defaults chunk_size=800, chunk_overlap=150. -/
structure PDFProcessor where
  chunk_size : Nat
  chunk_overlap : Nat
  deriving DecidableEq, Repr

/-- The default PDFProcessor configuration. -/
def PDFProcessor.mkDefault : PDFProcessor := ⟨800, 150⟩

/-! ## Ingestion (src/local_rag.py lines 72-130, claim C5) -/

/-- One page record as produced by extract_text_from_pdf (lines 34-40).
PDF text extraction is external (PyPDF2), so the page list is an oracle
input to the ingestion model. -/
structure PageData where
  text : List Char
  page_number : Nat
  file_name : String
  file_path : String
  total_pages : Nat
  deriving DecidableEq, Repr

/-- One chunk record as produced by process_pdf (lines 100-108). -/
structure Chunk where
  text : List Char
  file_name : String
  file_path : String
  page_number : Nat
  chunk_number : Nat
  total_chunks : Nat
  total_pages : Nat
  deriving DecidableEq, Repr

/-- PDFProcessor.process_pdf (lines 89-111): chunk every page with
semantic_chunking, number the chunks per page starting at 1 (counting
also the chunks that the length filter then drops), and keep only chunks
longer than 50 characters. -/
def process_pdf (p : PDFProcessor) (pages : List PageData) : List Chunk :=
  pages.flatMap fun pd =>
    let chunks := semantic_chunking p.chunk_size p.chunk_overlap pd.text
    chunks.enum.filterMap fun ic =>
      if 50 < ic.2.length then
        some ⟨ic.2, pd.file_name, pd.file_path, pd.page_number, ic.1 + 1,
          chunks.length, pd.total_pages⟩
      else none

/-- The file_info dict of get_pdf_files_recursive as consumed by
ingest_pdf: full_path is always present (ingest_pdf indexes it), subject
and module are read with dict.get. -/
structure FileInfo where
  full_path : String
  subject : Option String
  module : Option String
  deriving DecidableEq, Repr

/-- os.path.basename for forward-slash paths: the part after the last
separator. -/
def basename (s : String) : String :=
  String.mk ((splitKeepEmpty (fun c => c = '/') s.data []).getLastD [])

/-- MergedLocalRAG._chunk_id (lines 72-75): the deterministic chunk id
built from subject, module, file basename, page number and chunk
number. -/
def _chunk_id (fi : FileInfo) (ch : Chunk) : String :=
  (fi.subject.getD "unknown") ++ "|" ++ (fi.module.getD "unknown") ++ "|"
    ++ basename fi.full_path ++ "|p" ++ natRepr ch.page_number
    ++ "|c" ++ natRepr ch.chunk_number

/-- One stored entry of the vector collection: document text, metadata
and embedding. -/
structure StoredDoc where
  document : List Char
  metadata : Metadata
  embedding : List ℚ
  deriving DecidableEq, Repr

/-- Modelled from the spec: chromadb's collection.add is not code of this
repository; section 4.3 of the spec gives the Vector Index contract as
upsert(ids, documents, metadatas, embeddings) - insert or replace by id,
durably persisted.  The store is an insertion-ordered map from id to
entry and each add inserts a fresh id at the end or replaces the entry
held under an existing id. -/
def collection_add (store : List (String × StoredDoc))
    (entries : List (String × StoredDoc)) : List (String × StoredDoc) :=
  entries.foldl (fun s e => dictSet s e.1 e.2) store

/-- The metadata dict ingest_pdf builds for one chunk (lines 102-110). -/
def chunkMetadata (fi : FileInfo) (ch : Chunk) : Metadata :=
  ⟨some ch.file_name, some ch.file_path, fi.subject, fi.module,
   some ch.page_number, some ch.chunk_number, some ch.total_pages⟩

/-- MergedLocalRAG.ingest_pdf (lines 88-130) on its success path: process
the PDF into chunks, return 0 on an empty extraction, otherwise build
ids, documents, metadatas and embeddings and add them to the collection;
the returned count is the number of chunks.  The embedder is an oracle (a
pure per-text function per the embedding contract); BM25 rebuilding holds
no state relevant to this claim. -/
def ingest_pdf (p : PDFProcessor) (embed : List Char → List ℚ) (fi : FileInfo)
    (pages : List PageData) (store : List (String × StoredDoc)) :
    List (String × StoredDoc) × Nat :=
  let chunks := process_pdf p pages
  if chunks = [] then (store, 0)
  else
    let ids := chunks.map (_chunk_id fi)
    let entries := ids.zip (chunks.map fun ch =>
      (⟨ch.text, chunkMetadata fi ch, embed ch.text⟩ : StoredDoc))
    (collection_add store entries, chunks.length)

/-! ## SHA-256 and the cache key (src/utils/llm_cache.py, claim C7)

question_hash applies hashlib.sha256 to the UTF-8 bytes of the joined key
string.  hashlib is external, so SHA-256 (FIPS 180-4) is implemented here
directly over naturals reduced modulo 2^32, making the digest of a
concrete key computable inside proofs. -/

/-- Reduce to a 32-bit word. -/
def w32 (n : Nat) : Nat := n % 4294967296

/-- Rotate a 32-bit word right by n bits. -/
def rotr32 (n x : Nat) : Nat := w32 ((x >>> n) ||| (x <<< (32 - n)))

/-- FIPS 180-4 Sigma0. -/
def bigSigma0 (x : Nat) : Nat := rotr32 2 x ^^^ rotr32 13 x ^^^ rotr32 22 x

/-- FIPS 180-4 Sigma1. -/
def bigSigma1 (x : Nat) : Nat := rotr32 6 x ^^^ rotr32 11 x ^^^ rotr32 25 x

/-- FIPS 180-4 sigma0. -/
def smallSigma0 (x : Nat) : Nat := rotr32 7 x ^^^ rotr32 18 x ^^^ (x >>> 3)

/-- FIPS 180-4 sigma1. -/
def smallSigma1 (x : Nat) : Nat := rotr32 17 x ^^^ rotr32 19 x ^^^ (x >>> 10)

/-- FIPS 180-4 Ch, with bitwise negation as xor against the 32-bit mask. -/
def chF (x y z : Nat) : Nat := (x &&& y) ^^^ ((x ^^^ 4294967295) &&& z)

/-- FIPS 180-4 Maj. -/
def majF (x y z : Nat) : Nat := (x &&& y) ^^^ (x &&& z) ^^^ (y &&& z)

/-- The 64 SHA-256 round constants. -/
def sha256K : List Nat :=
  [1116352408, 1899447441, 3049323471, 3921009573,
   961987163, 1508970993, 2453635748, 2870763221,
   3624381080, 310598401, 607225278, 1426881987,
   1925078388, 2162078206, 2614888103, 3248222580,
   3835390401, 4022224774, 264347078, 604807628,
   770255983, 1249150122, 1555081692, 1996064986,
   2554220882, 2821834349, 2952996808, 3210313671,
   3336571891, 3584528711, 113926993, 338241895,
   666307205, 773529912, 1294757372, 1396182291,
   1695183700, 1986661051, 2177026350, 2456956037,
   2730485921, 2820302411, 3259730800, 3345764771,
   3516065817, 3600352804, 4094571909, 275423344,
   430227734, 506948616, 659060556, 883997877,
   958139571, 1322822218, 1537002063, 1747873779,
   1955562222, 2024104815, 2227730452, 2361852424,
   2428436474, 2756734187, 3204031479, 3329325298]

/-- The SHA-256 initial hash value. -/
def sha256H0 : List Nat :=
  [1779033703, 3144134277, 1013904242, 2773480762,
   1359893119, 2600822924, 528734635, 1541459225]

/-- UTF-8 encoding of one character as bytes. -/
def utf8EncodeChar (c : Char) : List Nat :=
  let n := c.toNat
  if n < 0x80 then [n]
  else if n < 0x800 then
    [0xC0 ||| (n >>> 6), 0x80 ||| (n &&& 0x3F)]
  else if n < 0x10000 then
    [0xE0 ||| (n >>> 12), 0x80 ||| ((n >>> 6) &&& 0x3F), 0x80 ||| (n &&& 0x3F)]
  else
    [0xF0 ||| (n >>> 18), 0x80 ||| ((n >>> 12) &&& 0x3F),
     0x80 ||| ((n >>> 6) &&& 0x3F), 0x80 ||| (n &&& 0x3F)]

/-- Python str.encode("utf-8"). -/
def utf8Encode (s : String) : List Nat := s.data.flatMap utf8EncodeChar

/-- The bit length of the message as eight big-endian bytes. -/
def be64 (n : Nat) : List Nat :=
  [(n >>> 56) &&& 255, (n >>> 48) &&& 255, (n >>> 40) &&& 255, (n >>> 32) &&& 255,
   (n >>> 24) &&& 255, (n >>> 16) &&& 255, (n >>> 8) &&& 255, n &&& 255]

/-- SHA-256 padding: append 0x80, zeros to 56 mod 64, and the 64-bit
big-endian bit length. -/
def sha256Pad (msg : List Nat) : List Nat :=
  let padLen := (64 - ((msg.length + 9) % 64)) % 64
  msg ++ 0x80 :: (List.replicate padLen 0 ++ be64 (8 * msg.length))

/-- Group the padded byte list into 64-byte blocks. -/
def toBlocksAux : List Nat → List Nat → Nat → List (List Nat)
  | [], acc, _ => if acc.isEmpty then [] else [acc.reverse]
  | b :: rest, acc, k =>
    if k = 63 then (b :: acc).reverse :: toBlocksAux rest [] 0
    else toBlocksAux rest (b :: acc) (k + 1)

/-- All 64-byte blocks of a padded message. -/
def toBlocks (l : List Nat) : List (List Nat) := toBlocksAux l [] 0

/-- Combine bytes into big-endian 32-bit words. -/
def toWords : List Nat → List Nat
  | b0 :: b1 :: b2 :: b3 :: rest =>
      ((((b0 <<< 8) ||| b1) <<< 8 ||| b2) <<< 8 ||| b3) :: toWords rest
  | _ => []

/-- One extension step of the SHA-256 message schedule: append
sigma1(W[i-2]) + W[i-7] + sigma0(W[i-15]) + W[i-16]. -/
def scheduleStep (ws : List Nat) (_i : Nat) : List Nat :=
  ws ++ [w32 (smallSigma1 (ws.getD (ws.length - 2) 0) + ws.getD (ws.length - 7) 0 +
    smallSigma0 (ws.getD (ws.length - 15) 0) + ws.getD (ws.length - 16) 0)]

/-- The 64-word message schedule of one block. -/
def schedule (block16 : List Nat) : List Nat :=
  (List.range 48).foldl scheduleStep block16

/-- The eight SHA-256 working registers. -/
structure Hash8 where
  a : Nat
  b : Nat
  c : Nat
  d : Nat
  e : Nat
  f : Nat
  g : Nat
  h : Nat
  deriving DecidableEq, Repr

/-- One SHA-256 compression round. -/
def compressStep (st : Hash8) (kw : Nat × Nat) : Hash8 :=
  let t1 := w32 (st.h + bigSigma1 st.e + chF st.e st.f st.g + kw.1 + kw.2)
  let t2 := w32 (bigSigma0 st.a + majF st.a st.b st.c)
  ⟨w32 (t1 + t2), st.a, st.b, st.c, w32 (st.d + t1), st.e, st.f, st.g⟩

/-- Compress one 64-byte block into the running hash. -/
def processBlock (h : List Nat) (block : List Nat) : List Nat :=
  let ws := schedule (toWords block)
  let init : Hash8 := ⟨h.getD 0 0, h.getD 1 0, h.getD 2 0, h.getD 3 0,
    h.getD 4 0, h.getD 5 0, h.getD 6 0, h.getD 7 0⟩
  let st := (sha256K.zip ws).foldl compressStep init
  [w32 (h.getD 0 0 + st.a), w32 (h.getD 1 0 + st.b), w32 (h.getD 2 0 + st.c),
   w32 (h.getD 3 0 + st.d), w32 (h.getD 4 0 + st.e), w32 (h.getD 5 0 + st.f),
   w32 (h.getD 6 0 + st.g), w32 (h.getD 7 0 + st.h)]

/-- The eight 32-bit words of the SHA-256 digest of a byte message. -/
def sha256Words (msg : List Nat) : List Nat :=
  (toBlocks (sha256Pad msg)).foldl processBlock sha256H0

/-- Lowercase hex rendering of one 32-bit word. -/
def wordToHex (w : Nat) : List Char :=
  [28, 24, 20, 16, 12, 8, 4, 0].map fun s => Nat.digitChar ((w >>> s) &&& 15)

/-- Python hashlib.sha256(bytes).hexdigest(). -/
def sha256hex (msg : List Nat) : String :=
  String.mk ((sha256Words msg).flatMap wordToHex)

/-- Python "|".join(ids). -/
def joinPipe : List String → String
  | [] => ""
  | [x] => x
  | x :: xs => x ++ "|" ++ joinPipe xs

/-- question_hash from src/utils/llm_cache.py lines 14-17: the SHA-256
hex digest of the UTF-8 bytes of question + "|" + "|".join(context_ids). -/
def question_hash (question : String) (context_ids : List String) : String :=
  sha256hex (utf8Encode (question ++ "|" ++ joinPipe context_ids))

/-! ### Dict lemmas -/

lemma dictLookup_dictSet {α : Type} (l : List (String × α)) (k : String) (v : α)
    (k2 : String) :
    dictLookup (dictSet l k v) k2 = if k = k2 then some v else dictLookup l k2 := by
  induction l with
  | nil => simp [dictSet, dictLookup]
  | cons kv rest ih =>
      obtain ⟨k0, v0⟩ := kv
      by_cases h0 : k0 = k
      · subst h0
        simp only [dictSet, if_pos rfl, dictLookup]
        by_cases h2 : k0 = k2 <;> simp [h2]
      · simp only [dictSet, if_neg h0, dictLookup]
        by_cases h2 : k0 = k2
        · subst h2
          have : ¬ k = k0 := fun h => h0 h.symm
          simp [this]
        · simp [h2, ih]

lemma dictLookup_isSome_iff {α : Type} (l : List (String × α)) (k : String) :
    (dictLookup l k).isSome = true ↔ k ∈ dictKeys l := by
  induction l with
  | nil => simp [dictLookup, dictKeys]
  | cons kv rest ih =>
      obtain ⟨k0, v0⟩ := kv
      by_cases h : k0 = k
      · subst h; simp [dictLookup, dictKeys]
      · simp [dictLookup, dictKeys, h, ih, Ne.symm h]

lemma mem_dictSet {α : Type} {kv : String × α} {l : List (String × α)}
    {k : String} {v : α} (h : kv ∈ dictSet l k v) : kv ∈ l ∨ kv = (k, v) := by
  induction l with
  | nil =>
      simp only [dictSet, List.mem_singleton] at h
      exact Or.inr h
  | cons kv0 rest ih =>
      obtain ⟨k0, v0⟩ := kv0
      simp only [dictSet] at h
      by_cases h0 : k0 = k
      · rw [if_pos h0] at h
        rcases List.mem_cons.mp h with h1 | h1
        · exact Or.inr h1
        · exact Or.inl (List.mem_cons_of_mem _ h1)
      · rw [if_neg h0] at h
        rcases List.mem_cons.mp h with h1 | h1
        · exact Or.inl (by simp [h1])
        · rcases ih h1 with h2 | h2
          · exact Or.inl (List.mem_cons_of_mem _ h2)
          · exact Or.inr h2

lemma dictLookup_eq_some_mem {α : Type} {l : List (String × α)} {k : String}
    {v : α} (h : dictLookup l k = some v) : (k, v) ∈ l := by
  induction l with
  | nil => simp [dictLookup] at h
  | cons kv0 rest ih =>
      obtain ⟨k0, v0⟩ := kv0
      simp only [dictLookup] at h
      by_cases h0 : k0 = k
      · rw [if_pos h0] at h
        injection h with h1
        rw [← h0, ← h1]
        exact List.mem_cons_self _ _
      · rw [if_neg h0] at h
        exact List.mem_cons_of_mem _ (ih h)

/-! ### Generic fold-of-assignments lemmas (used for the ingestion store) -/

lemma find?_append_some {α : Type} {l1 : List α} {p : α → Bool} {u : α}
    (h : l1.find? p = some u) (l2 : List α) : (l1 ++ l2).find? p = some u := by
  induction l1 with
  | nil => simp [List.find?] at h
  | cons a t ih =>
      rw [List.find?_cons] at h
      cases hp : p a with
      | true => rw [hp] at h; simpa [List.find?_cons, hp] using h
      | false => rw [hp] at h; simpa [List.find?_cons, hp] using ih h

lemma find?_append_none {α : Type} {l1 : List α} {p : α → Bool}
    (h : l1.find? p = none) (l2 : List α) : (l1 ++ l2).find? p = l2.find? p := by
  induction l1 with
  | nil => simp
  | cons a t ih =>
      rw [List.find?_cons] at h
      cases hp : p a with
      | true => rw [hp] at h; exact absurd h (by simp)
      | false => rw [hp] at h; simpa [List.find?_cons, hp] using ih h

lemma dictKeys_dictSet_mem {α : Type} {l : List (String × α)} {k : String} (v : α)
    (h : k ∈ dictKeys l) : dictKeys (dictSet l k v) = dictKeys l := by
  induction l with
  | nil => simp [dictKeys] at h
  | cons kv rest ih =>
      obtain ⟨k0, v0⟩ := kv
      by_cases h0 : k0 = k
      · simp [dictSet, h0, dictKeys]
      · have h2 : k ∈ dictKeys rest := by
          rcases List.mem_cons.mp h with h3 | h3
          · exact absurd h3.symm h0
          · exact h3
        simp only [dictSet, if_neg h0, dictKeys, List.map_cons] at ih ⊢
        rw [ih h2]

lemma dictKeys_dictSet_not_mem {α : Type} {l : List (String × α)} {k : String} (v : α)
    (h : k ∉ dictKeys l) : dictKeys (dictSet l k v) = dictKeys l ++ [k] := by
  induction l with
  | nil => simp [dictSet, dictKeys]
  | cons kv rest ih =>
      obtain ⟨k0, v0⟩ := kv
      have h0 : k0 ≠ k := by
        intro h0
        exact h (by simp [dictKeys, h0])
      have h2 : k ∉ dictKeys rest := fun h2 => h (by simp [dictKeys] at h2 ⊢; exact Or.inr h2)
      simp only [dictSet, if_neg h0, dictKeys, List.map_cons, List.cons_append] at ih ⊢
      rw [ih h2]

lemma nodup_dictKeys_dictSet {α : Type} {l : List (String × α)} {k : String} (v : α)
    (h : (dictKeys l).Nodup) : (dictKeys (dictSet l k v)).Nodup := by
  by_cases hm : k ∈ dictKeys l
  · rw [dictKeys_dictSet_mem v hm]; exact h
  · rw [dictKeys_dictSet_not_mem v hm]
    refine h.append (List.nodup_singleton k) ?_
    intro a ha hak
    rw [List.mem_singleton] at hak
    subst hak
    exact hm ha

lemma lookup_foldl_dictSet {α : Type} (es : List (String × α))
    (acc : List (String × α)) (k : String) :
    dictLookup (es.foldl (fun s e => dictSet s e.1 e.2) acc) k =
      match es.reverse.find? (fun e => e.1 == k) with
      | some e => some e.2
      | none => dictLookup acc k := by
  induction es generalizing acc with
  | nil => simp
  | cons e es ih =>
      show dictLookup (es.foldl _ (dictSet acc e.1 e.2)) k = _
      rw [ih]
      rw [List.reverse_cons]
      cases hfind : es.reverse.find? (fun u => u.1 == k) with
      | some u => rw [find?_append_some hfind [e]]
      | none =>
          rw [find?_append_none hfind [e], dictLookup_dictSet]
          by_cases hk : e.1 = k
          · rw [show ([e].find? fun u => u.1 == k) = some e from by
              simp [List.find?_cons, hk]]
            rw [if_pos hk]
          · rw [show ([e].find? fun u => u.1 == k) = none from by
              simp [List.find?_cons, hk]]
            rw [if_neg hk]

lemma mem_keys_foldl_dictSet {α : Type} {es : List (String × α)}
    (acc : List (String × α)) {k : String} (h : k ∈ es.map Prod.fst) :
    k ∈ dictKeys (es.foldl (fun s e => dictSet s e.1 e.2) acc) := by
  rw [← dictLookup_isSome_iff, lookup_foldl_dictSet]
  obtain ⟨e, he, hek⟩ := List.mem_map.mp h
  have : (es.reverse.find? (fun u => u.1 == k)).isSome = true := by
    rw [List.find?_isSome]
    exact ⟨e, List.mem_reverse.mpr he, by simp [hek]⟩
  cases hfind : es.reverse.find? (fun u => u.1 == k) with
  | some u => simp
  | none => rw [hfind] at this; simp at this

lemma keys_foldl_dictSet_of_subset {α : Type} (es : List (String × α)) :
    ∀ (acc : List (String × α)), (∀ e ∈ es, e.1 ∈ dictKeys acc) →
      dictKeys (es.foldl (fun s e => dictSet s e.1 e.2) acc) = dictKeys acc := by
  induction es with
  | nil => intro acc _; rfl
  | cons e es ih =>
      intro acc h
      have hk : dictKeys (dictSet acc e.1 e.2) = dictKeys acc :=
        dictKeys_dictSet_mem _ (h e (List.mem_cons_self e es))
      show dictKeys (es.foldl _ (dictSet acc e.1 e.2)) = _
      rw [ih (dictSet acc e.1 e.2)
        (fun u hu => by rw [hk]; exact h u (List.mem_cons_of_mem e hu)), hk]

lemma nodup_keys_foldl_dictSet {α : Type} (es : List (String × α)) :
    ∀ (acc : List (String × α)), (dictKeys acc).Nodup →
      (dictKeys (es.foldl (fun s e => dictSet s e.1 e.2) acc)).Nodup := by
  induction es with
  | nil => intro acc h; exact h
  | cons e es ih =>
      intro acc h
      exact ih (dictSet acc e.1 e.2) (nodup_dictKeys_dictSet e.2 h)

lemma dictLookup_eq_none_iff {α : Type} (l : List (String × α)) (k : String) :
    dictLookup l k = none ↔ k ∉ dictKeys l := by
  rw [← dictLookup_isSome_iff]
  cases dictLookup l k <;> simp

lemma dict_ext {α : Type} : ∀ (a b : List (String × α)),
    (dictKeys a).Nodup → dictKeys a = dictKeys b →
    (∀ k, dictLookup a k = dictLookup b k) → a = b := by
  intro a
  induction a with
  | nil =>
      intro b _ hkeys _
      cases b with
      | nil => rfl
      | cons kv b2 => simp [dictKeys] at hkeys
  | cons kv a2 ih =>
      intro b hnd hkeys hlook
      obtain ⟨k0, v0⟩ := kv
      cases b with
      | nil => simp [dictKeys] at hkeys
      | cons kw b2 =>
          obtain ⟨kb, wb⟩ := kw
          simp only [dictKeys, List.map_cons, List.cons.injEq] at hkeys
          obtain ⟨hk0, hkeys2⟩ := hkeys
          subst hk0
          have hv : v0 = wb := by
            have := hlook k0
            simp [dictLookup] at this
            exact this
          subst hv
          have hnd2 : (dictKeys a2).Nodup := (List.nodup_cons.mp hnd).2
          have hnotin : k0 ∉ dictKeys a2 := (List.nodup_cons.mp hnd).1
          have hnotin2 : k0 ∉ dictKeys b2 := by
            show k0 ∉ b2.map Prod.fst
            rw [← hkeys2]
            exact hnotin
          have hlook2 : ∀ k, dictLookup a2 k = dictLookup b2 k := by
            intro k
            by_cases hk : k = k0
            · subst hk
              rw [(dictLookup_eq_none_iff a2 k).mpr hnotin,
                (dictLookup_eq_none_iff b2 k).mpr hnotin2]
            · have := hlook k
              simp only [dictLookup, if_neg (fun h => hk (Eq.symm h))] at this
              exact this
          rw [ih b2 hnd2 hkeys2 hlook2]

/-! ### Lookup characterization of the semantic pass -/

lemma lookup_addSemanticCandidates (ts : List (String × (Metadata × ℚ)))
    (hnd : (ts.map fun t => docId t.2.1).Nodup) (acc : List (String × Candidate))
    (k : String) :
    dictLookup (addSemanticCandidates acc ts) k =
      match ts.find? (fun t => docId t.2.1 == k) with
      | some t => some ⟨t.1, t.2.1, t.2.2, 0, 0⟩
      | none => dictLookup acc k := by
  induction ts generalizing acc with
  | nil => rfl
  | cons t ts ih =>
      rw [List.map_cons, List.nodup_cons] at hnd
      obtain ⟨hnotin, hnd2⟩ := hnd
      show dictLookup (addSemanticCandidates (dictSet acc (docId t.2.1) _) ts) k = _
      rw [ih hnd2]
      by_cases hk : docId t.2.1 = k
      · subst hk
        cases hfind : ts.find? (fun u => docId u.2.1 == docId t.2.1) with
        | some u =>
            exfalso
            have hu := List.find?_some hfind
            have humem := List.mem_of_find?_eq_some hfind
            rw [beq_iff_eq] at hu
            exact hnotin (List.mem_map.mpr ⟨u, humem, hu⟩)
        | none =>
            rw [show (t :: ts).find? (fun u => docId u.2.1 == docId t.2.1) = some t by
              simp [List.find?_cons]]
            simp [dictLookup_dictSet]
      · rw [show (t :: ts).find? (fun u => docId u.2.1 == k) =
            ts.find? (fun u => docId u.2.1 == k) by simp [List.find?_cons, hk]]
        cases hfind : ts.find? (fun u => docId u.2.1 == k) with
        | some u => simp
        | none => simp [dictLookup_dictSet, hk]

/-! ### Lookup characterization of the BM25 merge pass -/

/-- The normalized BM25 score of one top candidate (line 270). -/
def bmNormalized (c : Bm25Candidate) (max_b : ℚ) : ℚ :=
  if 0 < max_b then c.score / max_b else 0

lemma lookup_applyBm25 (top : List Bm25Candidate)
    (hnd : (top.map fun c => docId c.meta).Nodup) (acc : List (String × Candidate))
    (max_b : ℚ) (k : String) :
    dictLookup (applyBm25 acc top max_b) k =
      match top.find? (fun c => docId c.meta == k) with
      | some c =>
          match dictLookup acc k with
          | some v => some { v with bm25_score := bmNormalized c max_b }
          | none => some ⟨c.doc, c.meta, 0, bmNormalized c max_b, 0⟩
      | none => dictLookup acc k := by
  induction top generalizing acc with
  | nil => rfl
  | cons c top ih =>
      rw [List.map_cons, List.nodup_cons] at hnd
      obtain ⟨hnotin, hnd2⟩ := hnd
      show dictLookup (applyBm25 (match dictLookup acc (docId c.meta) with
        | some v => dictSet acc (docId c.meta)
            { v with bm25_score := if 0 < max_b then c.score / max_b else 0 }
        | none => dictSet acc (docId c.meta)
            ⟨c.doc, c.meta, 0, (if 0 < max_b then c.score / max_b else 0), 0⟩) top max_b) k = _
      rw [ih hnd2]
      by_cases hk : docId c.meta = k
      · subst hk
        cases hfind : top.find? (fun u => docId u.meta == docId c.meta) with
        | some u =>
            exfalso
            have hu := List.find?_some hfind
            have humem := List.mem_of_find?_eq_some hfind
            rw [beq_iff_eq] at hu
            exact hnotin (List.mem_map.mpr ⟨u, humem, hu⟩)
        | none =>
            rw [show (c :: top).find? (fun u => docId u.meta == docId c.meta) = some c by
              simp [List.find?_cons]]
            cases hacc : dictLookup acc (docId c.meta) with
            | some v => simp [hacc, dictLookup_dictSet, bmNormalized]
            | none => simp [hacc, dictLookup_dictSet, bmNormalized]
      · rw [show (c :: top).find? (fun u => docId u.meta == k) =
            top.find? (fun u => docId u.meta == k) by simp [List.find?_cons, hk]]
        have hstep : dictLookup (match dictLookup acc (docId c.meta) with
            | some v => dictSet acc (docId c.meta)
                { v with bm25_score := if 0 < max_b then c.score / max_b else 0 }
            | none => dictSet acc (docId c.meta)
                ⟨c.doc, c.meta, 0, (if 0 < max_b then c.score / max_b else 0), 0⟩) k
            = dictLookup acc k := by
          cases hacc : dictLookup acc (docId c.meta) with
          | some v => simp [dictLookup_dictSet, hk]
          | none => simp [dictLookup_dictSet, hk]
        rw [hstep]

/-! ### Structural invariants of the combined dict -/

/-- Every entry of the combined dict is stored under the candidate id of
its own metadata. -/
def KeyedByMeta (l : List (String × Candidate)) : Prop :=
  ∀ kv ∈ l, kv.1 = docId kv.2.metadata

lemma keyedByMeta_dictSet {l : List (String × Candidate)} {k : String}
    {v : Candidate} (hl : KeyedByMeta l) (hkv : k = docId v.metadata) :
    KeyedByMeta (dictSet l k v) := by
  intro kv hmem
  rcases mem_dictSet hmem with h | h
  · exact hl kv h
  · rw [h]; exact hkv

lemma keyedByMeta_addSemanticCandidates (ts : List (String × (Metadata × ℚ)))
    (acc : List (String × Candidate)) (hacc : KeyedByMeta acc) :
    KeyedByMeta (addSemanticCandidates acc ts) := by
  induction ts generalizing acc with
  | nil => exact hacc
  | cons t ts ih => exact ih _ (keyedByMeta_dictSet hacc rfl)

lemma keyedByMeta_applyBm25 (top : List Bm25Candidate)
    (acc : List (String × Candidate)) (max_b : ℚ) (hacc : KeyedByMeta acc) :
    KeyedByMeta (applyBm25 acc top max_b) := by
  induction top generalizing acc with
  | nil => exact hacc
  | cons c top ih =>
      show KeyedByMeta (applyBm25 (match dictLookup acc (docId c.meta) with
        | some v => dictSet acc (docId c.meta)
            { v with bm25_score := if 0 < max_b then c.score / max_b else 0 }
        | none => dictSet acc (docId c.meta)
            ⟨c.doc, c.meta, 0, (if 0 < max_b then c.score / max_b else 0), 0⟩) top max_b)
      apply ih
      cases hlook : dictLookup acc (docId c.meta) with
      | some v =>
          have hv := hacc _ (dictLookup_eq_some_mem hlook)
          exact keyedByMeta_dictSet hacc hv
      | none => exact keyedByMeta_dictSet hacc rfl

lemma keyedByMeta_applyHybrid (l : List (String × Candidate)) (w : ℚ)
    (hl : KeyedByMeta l) : KeyedByMeta (applyHybrid l w) := by
  intro kv hmem
  simp only [applyHybrid, List.mem_map] at hmem
  obtain ⟨kv0, hkv0, rfl⟩ := hmem
  exact hl kv0 hkv0

lemma mem_dictKeys_dictSet {α : Type} {k2 k : String} {v : α}
    {l : List (String × α)} (h : k2 ∈ dictKeys (dictSet l k v)) :
    k2 ∈ dictKeys l ∨ k2 = k := by
  simp only [dictKeys, List.mem_map] at h ⊢
  obtain ⟨kv, hkv, rfl⟩ := h
  rcases mem_dictSet hkv with h | h
  · exact Or.inl ⟨kv, h, rfl⟩
  · rw [h]; exact Or.inr rfl

lemma mem_keys_addSemanticCandidates {ts : List (String × (Metadata × ℚ))}
    {acc : List (String × Candidate)} {k : String}
    (h : k ∈ dictKeys (addSemanticCandidates acc ts)) :
    k ∈ dictKeys acc ∨ k ∈ ts.map fun t => docId t.2.1 := by
  induction ts generalizing acc with
  | nil => exact Or.inl h
  | cons t ts ih =>
      have h0 : k ∈ dictKeys (addSemanticCandidates
          (dictSet acc (docId t.2.1) ⟨t.1, t.2.1, t.2.2, 0, 0⟩) ts) := h
      rcases ih h0 with h2 | h2
      · rcases mem_dictKeys_dictSet h2 with h3 | h3
        · exact Or.inl h3
        · exact Or.inr (by simp [h3])
      · exact Or.inr (by simp [h2])

lemma mem_keys_applyBm25 {top : List Bm25Candidate}
    {acc : List (String × Candidate)} {max_b : ℚ} {k : String}
    (h : k ∈ dictKeys (applyBm25 acc top max_b)) :
    k ∈ dictKeys acc ∨ k ∈ top.map fun c => docId c.meta := by
  induction top generalizing acc with
  | nil => exact Or.inl h
  | cons c top ih =>
      have h0 : k ∈ dictKeys (applyBm25 (match dictLookup acc (docId c.meta) with
        | some v => dictSet acc (docId c.meta)
            { v with bm25_score := if 0 < max_b then c.score / max_b else 0 }
        | none => dictSet acc (docId c.meta)
            ⟨c.doc, c.meta, 0, (if 0 < max_b then c.score / max_b else 0), 0⟩) top max_b) := h
      rcases ih h0 with h2 | h2
      · have h3 : k ∈ dictKeys acc ∨ k = docId c.meta := by
          cases hlook : dictLookup acc (docId c.meta) with
          | some v => rw [hlook] at h2; exact mem_dictKeys_dictSet h2
          | none => rw [hlook] at h2; exact mem_dictKeys_dictSet h2
        rcases h3 with h4 | h4
        · exact Or.inl h4
        · exact Or.inr (by simp [h4])
      · exact Or.inr (by simp [h2])

lemma dictKeys_applyHybrid (l : List (String × Candidate)) (w : ℚ) :
    dictKeys (applyHybrid l w) = dictKeys l := by
  simp [dictKeys, applyHybrid]

/-- Every entry whose key is outside the semantic key set carries semantic
score 0. -/
def SemZeroOutside (semKeys : List String) (l : List (String × Candidate)) : Prop :=
  ∀ kv ∈ l, kv.1 ∉ semKeys → kv.2.semantic_score = 0

lemma semZeroOutside_semPass (ts : List (String × (Metadata × ℚ))) :
    SemZeroOutside (ts.map fun t => docId t.2.1) (addSemanticCandidates [] ts) := by
  intro kv hmem hnot
  exfalso
  apply hnot
  have : kv.1 ∈ dictKeys (addSemanticCandidates [] ts) := by
    simp only [dictKeys, List.mem_map]
    exact ⟨kv, hmem, rfl⟩
  rcases mem_keys_addSemanticCandidates this with h | h
  · simp [dictKeys] at h
  · exact h

lemma semZeroOutside_applyBm25 {S : List String} (top : List Bm25Candidate)
    (acc : List (String × Candidate)) (max_b : ℚ) (hacc : SemZeroOutside S acc) :
    SemZeroOutside S (applyBm25 acc top max_b) := by
  induction top generalizing acc with
  | nil => exact hacc
  | cons c top ih =>
      show SemZeroOutside S (applyBm25 (match dictLookup acc (docId c.meta) with
        | some v => dictSet acc (docId c.meta)
            { v with bm25_score := if 0 < max_b then c.score / max_b else 0 }
        | none => dictSet acc (docId c.meta)
            ⟨c.doc, c.meta, 0, (if 0 < max_b then c.score / max_b else 0), 0⟩) top max_b)
      apply ih
      cases hlook : dictLookup acc (docId c.meta) with
      | some v =>
          intro kv hmem hnot
          rcases mem_dictSet hmem with h | h
          · exact hacc kv h hnot
          · rw [h] at hnot ⊢
            show v.semantic_score = 0
            exact hacc _ (dictLookup_eq_some_mem hlook) hnot
      | none =>
          intro kv hmem hnot
          rcases mem_dictSet hmem with h | h
          · exact hacc kv h hnot
          · rw [h]

lemma semZeroOutside_applyHybrid {S : List String}
    (l : List (String × Candidate)) (w : ℚ) (hl : SemZeroOutside S l) :
    SemZeroOutside S (applyHybrid l w) := by
  intro kv hmem hnot
  simp only [applyHybrid, List.mem_map] at hmem
  obtain ⟨kv0, hkv0, rfl⟩ := hmem
  exact hl kv0 hkv0 hnot

/-! ### Lookup characterization of the hybrid scoring pass -/

lemma lookup_applyHybrid (l : List (String × Candidate)) (w : ℚ) (k : String) :
    dictLookup (applyHybrid l w) k =
      (dictLookup l k).map fun v =>
        { v with hybrid_score := w * v.semantic_score + (1 - w) * v.bm25_score } := by
  induction l with
  | nil => rfl
  | cons kv rest ih =>
      obtain ⟨k0, v0⟩ := kv
      by_cases h : k0 = k
      · subst h; simp [applyHybrid, dictLookup]
      · simp only [applyHybrid, List.map_cons, dictLookup, if_neg h] at ih ⊢
        exact ih

/-- Closed form of a lookup in the fully fused and scored candidate dict,
assuming each top set carries distinct candidate ids. -/
lemma lookup_combined (sem : List (String × (Metadata × ℚ)))
    (top : List Bm25Candidate) (max_b w : ℚ)
    (hsem : (sem.map fun t => docId t.2.1).Nodup)
    (hbm : (top.map fun c => docId c.meta).Nodup) (k : String) :
    dictLookup (applyHybrid (applyBm25 (addSemanticCandidates [] sem) top max_b) w) k =
      match top.find? (fun c => docId c.meta == k),
          sem.find? (fun t => docId t.2.1 == k) with
      | some c, some t => some ⟨t.1, t.2.1, t.2.2, bmNormalized c max_b,
          w * t.2.2 + (1 - w) * bmNormalized c max_b⟩
      | some c, none => some ⟨c.doc, c.meta, 0, bmNormalized c max_b,
          w * 0 + (1 - w) * bmNormalized c max_b⟩
      | none, some t => some ⟨t.1, t.2.1, t.2.2, 0, w * t.2.2 + (1 - w) * 0⟩
      | none, none => none := by
  rw [lookup_applyHybrid, lookup_applyBm25 top hbm,
    lookup_addSemanticCandidates sem hsem]
  cases top.find? (fun c => docId c.meta == k) <;>
    cases sem.find? (fun t => docId t.2.1 == k) <;> rfl

lemma find?_key_isSome_iff_sem (sem : List (String × (Metadata × ℚ))) (k : String) :
    (sem.find? fun t => docId t.2.1 == k).isSome = true ↔
      k ∈ sem.map fun t => docId t.2.1 := by
  rw [List.find?_isSome]
  simp only [beq_iff_eq, List.mem_map]

lemma find?_key_isSome_iff_bm (top : List Bm25Candidate) (k : String) :
    (top.find? fun c => docId c.meta == k).isSome = true ↔
      k ∈ top.map fun c => docId c.meta := by
  rw [List.find?_isSome]
  simp only [beq_iff_eq, List.mem_map]

/-- C2.  In hybrid_search every candidate is identified by the triple
(file_name, page_number, chunk_number): the combined-dict key is a
function of that triple alone and distinct triples give distinct keys.
Under distinct ids within each top set, a candidate appearing in both the
semantic and the lexical top sets gets both of its scores merged into one
record, a candidate present in only one set has the other score equal to
0, and every fused record satisfies
hybrid_score = semantic_weight * semantic_score + (1 - semantic_weight) *
bm25_score.  The semantic_weight parameter of hybrid_search defaults to
0.7. -/
theorem claim_C2_fusion (sem : List (String × (Metadata × ℚ)))
    (top : List Bm25Candidate) (max_b w : ℚ)
    (hsem : (sem.map fun t => docId t.2.1).Nodup)
    (hbm : (top.map fun c => docId c.meta).Nodup) :
    (∀ m1 m2 : Metadata, docId m1 = docId m2 → keyTriple m1 = keyTriple m2) ∧
    (∀ k : String,
      ((dictLookup (applyHybrid (applyBm25 (addSemanticCandidates [] sem) top max_b) w)
          k).isSome = true ↔
        ((k ∈ sem.map fun t => docId t.2.1) ∨ (k ∈ top.map fun c => docId c.meta))) ∧
      (∀ v, dictLookup (applyHybrid (applyBm25 (addSemanticCandidates [] sem) top max_b) w)
          k = some v →
        v.semantic_score = (match sem.find? (fun t => docId t.2.1 == k) with
          | some t => t.2.2
          | none => 0) ∧
        v.bm25_score = (match top.find? (fun c => docId c.meta == k) with
          | some c => bmNormalized c max_b
          | none => 0) ∧
        v.hybrid_score = w * v.semantic_score + (1 - w) * v.bm25_score)) ∧
    (∀ semRaw enable_bm25 bm25 query n_results subject_filter module_filter,
      hybrid_search semRaw enable_bm25 bm25 query n_results subject_filter module_filter =
        hybrid_search semRaw enable_bm25 bm25 query n_results subject_filter module_filter
          (7 / 10)) := by
  refine ⟨docId_inj_on_keyTriple, fun k => ⟨?_, ?_⟩, fun _ _ _ _ _ _ _ => rfl⟩
  · rw [lookup_combined sem top max_b w hsem hbm]
    rw [← find?_key_isSome_iff_sem sem k, ← find?_key_isSome_iff_bm top k]
    cases top.find? (fun c => docId c.meta == k) with
    | some c =>
        cases sem.find? (fun t => docId t.2.1 == k) with
        | some t => simp
        | none => simp
    | none =>
        cases sem.find? (fun t => docId t.2.1 == k) with
        | some t => simp
        | none => simp
  · intro v hv
    rw [lookup_combined sem top max_b w hsem hbm] at hv
    cases hbf : top.find? (fun c => docId c.meta == k) with
    | some c =>
        cases hsf : sem.find? (fun t => docId t.2.1 == k) with
        | some t =>
            rw [hbf, hsf] at hv
            injection hv with hv
            rw [← hv]
            exact ⟨rfl, rfl, rfl⟩
        | none =>
            rw [hbf, hsf] at hv
            injection hv with hv
            rw [← hv]
            exact ⟨rfl, rfl, rfl⟩
    | none =>
        cases hsf : sem.find? (fun t => docId t.2.1 == k) with
        | some t =>
            rw [hbf, hsf] at hv
            injection hv with hv
            rw [← hv]
            exact ⟨rfl, rfl, rfl⟩
        | none =>
            rw [hbf, hsf] at hv
            exact absurd hv (by simp)

/-- Concrete semantic top set used by the C2 witness. -/
def c2SemW : List (String × (Metadata × ℚ)) :=
  [("doc one", (⟨some "a.pdf", none, none, none, some 1, some 1, none⟩, 1))]

/-- Concrete BM25 top set used by the C2 witness. -/
def c2TopW : List Bm25Candidate :=
  [⟨0, 5, ⟨some "b.pdf", none, none, none, some 2, some 3, none⟩, "doc two"⟩]

/-- Witness for C2 at one semantic candidate and one BM25 candidate. -/
theorem claim_C2_witness :
    (∀ m1 m2 : Metadata, docId m1 = docId m2 → keyTriple m1 = keyTriple m2) ∧
    (∀ k : String,
      ((dictLookup (applyHybrid (applyBm25 (addSemanticCandidates [] c2SemW) c2TopW 5)
          (7 / 10)) k).isSome = true ↔
        ((k ∈ c2SemW.map fun t => docId t.2.1) ∨ (k ∈ c2TopW.map fun c => docId c.meta))) ∧
      (∀ v, dictLookup (applyHybrid (applyBm25 (addSemanticCandidates [] c2SemW) c2TopW 5)
          (7 / 10)) k = some v →
        v.semantic_score = (match c2SemW.find? (fun t => docId t.2.1 == k) with
          | some t => t.2.2
          | none => 0) ∧
        v.bm25_score = (match c2TopW.find? (fun c => docId c.meta == k) with
          | some c => bmNormalized c 5
          | none => 0) ∧
        v.hybrid_score = 7 / 10 * v.semantic_score + (1 - 7 / 10) * v.bm25_score)) ∧
    (∀ semRaw enable_bm25 bm25 query n_results subject_filter module_filter,
      hybrid_search semRaw enable_bm25 bm25 query n_results subject_filter module_filter =
        hybrid_search semRaw enable_bm25 bm25 query n_results subject_filter module_filter
          (7 / 10)) :=
  claim_C2_fusion c2SemW c2TopW 5 (7 / 10) (by decide) (by decide)

/-! ## Ranking: sortedness, stability, truncation (claim C3) -/

instance : IsTotal Candidate candGE :=
  ⟨fun a b => le_total b.hybrid_score a.hybrid_score⟩

instance : IsTrans Candidate candGE :=
  ⟨fun _ _ _ hab hbc => le_trans hbc hab⟩

lemma filter_orderedInsert_eq (v : ℚ) (a : Candidate) (l : List Candidate)
    (ha : a.hybrid_score = v) :
    (List.orderedInsert candGE a l).filter (fun x => decide (x.hybrid_score = v)) =
      a :: l.filter (fun x => decide (x.hybrid_score = v)) := by
  induction l with
  | nil => simp [List.orderedInsert, ha]
  | cons b t ih =>
      by_cases hr : candGE a b
      · simp only [List.orderedInsert, if_pos hr]
        simp [List.filter_cons, ha]
      · simp only [List.orderedInsert, if_neg hr]
        have hb : ¬ (b.hybrid_score = v) := by
          intro hbv
          exact hr (le_of_eq (by rw [hbv, ha]))
        simp [List.filter_cons, hb, ih]

lemma filter_orderedInsert_ne (v : ℚ) (a : Candidate) (l : List Candidate)
    (ha : ¬ (a.hybrid_score = v)) :
    (List.orderedInsert candGE a l).filter (fun x => decide (x.hybrid_score = v)) =
      l.filter (fun x => decide (x.hybrid_score = v)) := by
  induction l with
  | nil => simp [List.orderedInsert, ha]
  | cons b t ih =>
      by_cases hr : candGE a b
      · simp only [List.orderedInsert, if_pos hr]
        simp [List.filter_cons, ha]
      · simp only [List.orderedInsert, if_neg hr]
        simp [List.filter_cons, ih]

lemma filter_insertionSort (v : ℚ) (l : List Candidate) :
    (List.insertionSort candGE l).filter (fun x => decide (x.hybrid_score = v)) =
      l.filter (fun x => decide (x.hybrid_score = v)) := by
  induction l with
  | nil => rfl
  | cons a t ih =>
      show (List.orderedInsert candGE a (List.insertionSort candGE t)).filter _ = _
      by_cases ha : a.hybrid_score = v
      · rw [filter_orderedInsert_eq v a _ ha, ih]
        simp [List.filter_cons, ha]
      · rw [filter_orderedInsert_ne v a _ ha, ih]
        simp [List.filter_cons, ha]

/-- C3.  For every successful hybrid_search run: the returned record is
exactly the ranking stage applied to the fused candidates — the fused
values stably sorted by hybrid_score descending (ties keep first-seen
order, which is original semantic rank for semantic candidates, shown by
the per-score filter identity), truncated to at most n_results entries. -/
theorem claim_C3_ranking (semRaw : Except PyErr SemanticRaw) (enable_bm25 : Bool)
    (bm25 : Option Bm25Index) (query : String) (n_results : Nat)
    (subject_filter module_filter : Option String) (w : ℚ)
    (scored : List (String × Candidate)) (res : SearchResult)
    (hf : hybridFused semRaw enable_bm25 bm25 n_results subject_filter module_filter w =
      .ok scored)
    (hc : hybridSearchCore semRaw enable_bm25 bm25 query n_results subject_filter
      module_filter w = .ok res) :
    res = mkSearchResult (rankCandidates (scored.map Prod.snd) n_results) query ∧
    List.Sorted candGE (rankCandidates (scored.map Prod.snd) n_results) ∧
    (rankCandidates (scored.map Prod.snd) n_results).length =
      min n_results (scored.map Prod.snd).length ∧
    (List.insertionSort candGE (scored.map Prod.snd)).Perm (scored.map Prod.snd) ∧
    (∀ v : ℚ, (List.insertionSort candGE (scored.map Prod.snd)).filter
        (fun x => decide (x.hybrid_score = v)) =
      (scored.map Prod.snd).filter (fun x => decide (x.hybrid_score = v))) := by
  refine ⟨?_, ?_, ?_, List.perm_insertionSort candGE _, fun v => filter_insertionSort v _⟩
  · unfold hybridSearchCore at hc
    rw [hf] at hc
    exact (Except.ok.inj hc).symm
  · exact List.Pairwise.sublist (List.take_sublist _ _)
      (List.sorted_insertionSort candGE _)
  · simp [rankCandidates, List.length_take, List.length_insertionSort]

/-- Concrete metadata record used by the C3 witness. -/
def c3MdW : Metadata := ⟨some "a.pdf", none, none, none, some 1, some 1, none⟩

/-- Concrete fused candidate list used by the C3 witness. -/
def c3ScoredW : List (String × Candidate) :=
  [("a.pdf_p1_c1", ⟨"doc one", c3MdW, 1, 0, 7 / 10⟩)]

/-- Witness for C3 at a one-candidate success run of hybrid_search. -/
theorem claim_C3_witness :
    mkSearchResult (rankCandidates (c3ScoredW.map Prod.snd) 5) "q" =
      mkSearchResult (rankCandidates (c3ScoredW.map Prod.snd) 5) "q" ∧
    List.Sorted candGE (rankCandidates (c3ScoredW.map Prod.snd) 5) ∧
    (rankCandidates (c3ScoredW.map Prod.snd) 5).length =
      min 5 (c3ScoredW.map Prod.snd).length ∧
    (List.insertionSort candGE (c3ScoredW.map Prod.snd)).Perm (c3ScoredW.map Prod.snd) ∧
    (∀ v : ℚ, (List.insertionSort candGE (c3ScoredW.map Prod.snd)).filter
        (fun x => decide (x.hybrid_score = v)) =
      (c3ScoredW.map Prod.snd).filter (fun x => decide (x.hybrid_score = v))) :=
  claim_C3_ranking (.ok ⟨[["doc one"]], [[c3MdW]], [[PyFloat.fin 0]]⟩) false none "q" 5
    none none (7 / 10) c3ScoredW
    (mkSearchResult (rankCandidates (c3ScoredW.map Prod.snd) 5) "q")
    (by decide) (by decide)

/-! ## The cached answer flow (claim C8)

load_cached_answer and save_cached_answer from src/utils/llm_cache.py and
the cache steps of QueryService.execute_query from
src/services/query_service.py.  Filesystem and JSON outcomes are oracle
inputs. -/

/-- A parsed cache payload: the JSON dict, read with dict.get. -/
abbrev CachePayload := List (String × String)

/-- load_cached_answer (lines 20-29): if the cache file exists, read and
parse it inside a try block, returning None on any failure; if it does
not exist, return None.  The combined read-and-parse outcome is the
oracle. -/
def load_cached_answer (cacheExists : Bool)
    (readParse : Except String CachePayload) : Option CachePayload :=
  if cacheExists then
    match readParse with
    | .ok payload => some payload
    | .error _ => none
  else none

/-- save_cached_answer (lines 32-41): attempt the write; on failure print
the error and return normally. -/
def save_cached_answer (writeResult : Except String Unit) : Unit :=
  match writeResult with
  | .ok _ => ()
  | .error _ => ()

/-- QueryService._save_to_cache (query_service.py lines 126-138): build
the payload and save it, logging and swallowing any failure; it calls
save_cached_answer, which already swallows write failures. -/
def _save_to_cache (writeResult : Except String Unit) : Unit :=
  save_cached_answer writeResult

/-- The caller-visible outcome of the answer flow: the answer text,
whether it came from the cache, and the mode tag. -/
structure QueryAnswer where
  answer : String
  cached : Bool
  mode : String
  deriving DecidableEq, Repr

/-- Python dict.get(k, default) on a parsed payload. -/
def pyDictGet (d : CachePayload) (k : String) (default : String) : String :=
  match dictLookup d k with
  | some v => v
  | none => default

/-- Steps 2-5 of QueryService.execute_query (lines 84-115): load the
cached answer; if it is truthy (present and non-empty) answer from the
cache; otherwise use the generated answer, save it to the cache
(failures swallowed), and return it. -/
def answerFlow (cacheExists : Bool) (readParse : Except String CachePayload)
    (generated : String) (use_cloud : Bool) (writeResult : Except String Unit) :
    QueryAnswer :=
  match load_cached_answer cacheExists readParse with
  | some payload =>
      if payload.isEmpty then
        let _ := _save_to_cache writeResult
        ⟨generated, false, if use_cloud then "cloud" else "local"⟩
      else
        ⟨pyDictGet payload "answer" "", true, pyDictGet payload "mode" "unknown"⟩
  | none =>
      let _ := _save_to_cache writeResult
      ⟨generated, false, if use_cloud then "cloud" else "local"⟩

/-- C8.  Cache failures never propagate: every load returns a value (on
any read or parse failure it returns None, so the flow proceeds exactly
as when no cache file exists), and the answer flow completes normally
regardless of the write outcome - its result is independent of the write
result, and after a read failure it returns the freshly generated,
uncached answer. -/
theorem claim_C8_cache_failures_nonfatal :
    (∀ (cacheExists : Bool) (e : String),
      load_cached_answer cacheExists (.error e) = none) ∧
    (∀ (cacheExists : Bool) (e gen : String) (uc : Bool) (wr : Except String Unit),
      answerFlow cacheExists (.error e) gen uc wr =
        answerFlow false (.error e) gen uc wr) ∧
    (∀ (cacheExists : Bool) (rp : Except String CachePayload) (gen : String)
      (uc : Bool) (e2 : String),
      answerFlow cacheExists rp gen uc (.error e2) =
        answerFlow cacheExists rp gen uc (.ok ())) ∧
    (∀ (cacheExists : Bool) (e gen : String) (uc : Bool) (wr : Except String Unit),
      (answerFlow cacheExists (.error e) gen uc wr).answer = gen ∧
      (answerFlow cacheExists (.error e) gen uc wr).cached = false) := by
  refine ⟨?_, ?_, ?_, ?_⟩
  · intro cacheExists e
    cases cacheExists <;> rfl
  · intro cacheExists e gen uc wr
    cases cacheExists <;> rfl
  · intro cacheExists rp gen uc e2
    cases cacheExists <;> rfl
  · intro cacheExists e gen uc wr
    cases cacheExists <;> exact ⟨rfl, rfl⟩

/-! ## Cache key sensitivity (claim C7) -/

/-- C7, counterexample.  The claim says the same question with the same
context identifiers in a different order always yields a different key.
The identifier lists ["x", "x|x"] and ["x|x", "x"] are the same
identifiers in a different order (a permutation of two distinct lists),
yet the pipe-join flattens both to the one key string "Q|x|x|x", so
question_hash returns the identical digest - the encoding of the id
list into the hashed string is not injective, and no hash collision is
involved. -/
theorem claim_C7_counterexample :
    (["x", "x|x"] : List String) ≠ ["x|x", "x"] ∧
    (["x", "x|x"] : List String).Perm ["x|x", "x"] ∧
    question_hash "Q" ["x", "x|x"] = question_hash "Q" ["x|x", "x"] := by
  refine ⟨by decide, List.Perm.swap "x|x" "x" [], ?_⟩
  show sha256hex (utf8Encode ("Q" ++ "|" ++ joinPipe ["x", "x|x"])) =
    sha256hex (utf8Encode ("Q" ++ "|" ++ joinPipe ["x|x", "x"]))
  exact congrArg (fun s => sha256hex (utf8Encode s)) (by decide)

/-- C7, amended.  The cache key is a deterministic digest of the question
and the ordered context id list, and it depends on them only through the
joined string question + "|" + "|".join(context_ids): equal inputs give
equal keys, inputs with the same joined string give equal keys (so a
reordering that leaves the join unchanged, as in the counterexample,
collides), and at the claim's cited inputs the reordering does change the
join and the keys differ: the digests of "Q|a:0|b:1" and "Q|b:1|a:0" are
distinct. -/
theorem claim_C7_cache_key :
    (∀ (q : String) (ids : List String) (q2 : String) (ids2 : List String),
      q = q2 → ids = ids2 → question_hash q ids = question_hash q2 ids2) ∧
    (∀ (q : String) (ids : List String) (q2 : String) (ids2 : List String),
      q ++ "|" ++ joinPipe ids = q2 ++ "|" ++ joinPipe ids2 →
      question_hash q ids = question_hash q2 ids2) ∧
    question_hash "Q" ["a:0", "b:1"] ≠ question_hash "Q" ["b:1", "a:0"] := by
  refine ⟨fun q ids q2 ids2 hq hi => by rw [hq, hi],
    fun q ids q2 ids2 hj => ?_, ?_⟩
  · show sha256hex (utf8Encode (q ++ "|" ++ joinPipe ids)) =
      sha256hex (utf8Encode (q2 ++ "|" ++ joinPipe ids2))
    rw [hj]
  · set_option maxRecDepth 4000 in decide

/-- Witness for C7: determinism applied at the first cited input, the
joined-string clause applied at the counterexample pair, and the
inequality of the two cited keys. -/
theorem claim_C7_witness :
    question_hash "Q" ["a:0", "b:1"] = question_hash "Q" ["a:0", "b:1"] ∧
    question_hash "Q" ["x", "x|x"] = question_hash "Q" ["x|x", "x"] ∧
    question_hash "Q" ["a:0", "b:1"] ≠ question_hash "Q" ["b:1", "a:0"] :=
  ⟨claim_C7_cache_key.1 "Q" ["a:0", "b:1"] "Q" ["a:0", "b:1"] rfl rfl,
   claim_C7_cache_key.2.1 "Q" ["x", "x|x"] "Q" ["x|x", "x"] (by decide),
   claim_C7_cache_key.2.2⟩

/-! ## Failure behavior of hybrid_search (claims C4, C10) -/

/-- The part of a hybrid_search response every caller reads: the fields
present in both the success dict and the except-branch dict. -/
def callerView (r : SearchResult) : List String × List Metadata × List ℚ × String × Nat :=
  (r.documents, r.metadatas, r.scores, r.query, r.total_results)

/-- C4, counterexample.  A query against a raising (uninitialized or
corrupted) store does not produce a RetrievalError or any other error
signal: hybrid_search catches the exception and returns the silent
empty-result dict, whose caller-visible fields are identical to those of
an ordinary empty result, so the two cases are not distinguishable by an
error signal. -/
theorem claim_C4_counterexample :
    hybrid_search (.error (.other "store is corrupt")) true none "q" 5 none none =
      failureResult "q" ∧
    callerView (hybrid_search (.error (.other "store is corrupt")) true none "q" 5
        none none) =
      callerView (hybrid_search (.ok ⟨[], [], []⟩) true none "q" 5 none none) := by
  decide

/-- C4, amended.  When the try block of hybrid_search fails with any
exception, hybrid_search returns the silent empty-result dict (documents,
metadatas and scores empty, total_results 0, no error field, and the
semantic_scores and bm25_scores keys absent), and the caller-visible
fields coincide with those of an ordinary empty search; no exception and
no RetrievalError reaches the caller, and the process does not crash. -/
theorem claim_C4_silent_failure (semRaw : Except PyErr SemanticRaw) (enable_bm25 : Bool)
    (bm25 : Option Bm25Index) (query : String) (n_results : Nat)
    (subject_filter module_filter : Option String) (w : ℚ) (e : PyErr)
    (h : hybridSearchCore semRaw enable_bm25 bm25 query n_results subject_filter
      module_filter w = .error e) :
    hybrid_search semRaw enable_bm25 bm25 query n_results subject_filter module_filter w =
      failureResult query ∧
    (failureResult query).semantic_scores = none ∧
    (failureResult query).bm25_scores = none ∧
    callerView (hybrid_search semRaw enable_bm25 bm25 query n_results subject_filter
        module_filter w) =
      callerView (hybrid_search (.ok ⟨[], [], []⟩) false none query n_results
        subject_filter module_filter w) := by
  have h1 : hybrid_search semRaw enable_bm25 bm25 query n_results subject_filter
      module_filter w = failureResult query := by
    unfold hybrid_search
    rw [h]
  have h2 : hybridSearchCore (.ok (⟨[], [], []⟩ : SemanticRaw)) false none query n_results
      subject_filter module_filter w = .ok (mkSearchResult [] query) := by
    unfold hybridSearchCore hybridFused
    simp [semTriples, _safe_get_first, rankCandidates, List.take_nil]
  have h3 : hybrid_search (.ok (⟨[], [], []⟩ : SemanticRaw)) false none query n_results
      subject_filter module_filter w = mkSearchResult [] query := by
    unfold hybrid_search
    rw [h2]
  refine ⟨h1, rfl, rfl, ?_⟩
  rw [h1, h3]
  rfl

/-- Witness for C4 at a concrete raising store oracle. -/
theorem claim_C4_witness :
    hybrid_search (.error (.other "boom")) true none "q" 3 none none (7 / 10) =
      failureResult "q" ∧
    (failureResult "q").semantic_scores = none ∧
    (failureResult "q").bm25_scores = none ∧
    callerView (hybrid_search (.error (.other "boom")) true none "q" 3 none none (7 / 10)) =
      callerView (hybrid_search (.ok ⟨[], [], []⟩) false none "q" 3 none none (7 / 10)) :=
  claim_C4_silent_failure (.error (.other "boom")) true none "q" 3 none none (7 / 10)
    (.other "boom") rfl

/-- C10.  For every query, every requested count and every oracle outcome,
hybrid_search returns normally: the documents, metadatas and scores lists
of the returned record have equal length, total_results equals that
length, the length is at most n_results, and the record is either the
success record of the try body or, after any internal failure, the empty
failure record. -/
theorem claim_C10_total_shape (semRaw : Except PyErr SemanticRaw) (enable_bm25 : Bool)
    (bm25 : Option Bm25Index) (query : String) (n_results : Nat)
    (subject_filter module_filter : Option String) (w : ℚ) :
    (hybrid_search semRaw enable_bm25 bm25 query n_results subject_filter
        module_filter w).documents.length =
      (hybrid_search semRaw enable_bm25 bm25 query n_results subject_filter
        module_filter w).metadatas.length ∧
    (hybrid_search semRaw enable_bm25 bm25 query n_results subject_filter
        module_filter w).documents.length =
      (hybrid_search semRaw enable_bm25 bm25 query n_results subject_filter
        module_filter w).scores.length ∧
    (hybrid_search semRaw enable_bm25 bm25 query n_results subject_filter
        module_filter w).total_results =
      (hybrid_search semRaw enable_bm25 bm25 query n_results subject_filter
        module_filter w).documents.length ∧
    (hybrid_search semRaw enable_bm25 bm25 query n_results subject_filter
        module_filter w).documents.length ≤ n_results ∧
    (hybridSearchCore semRaw enable_bm25 bm25 query n_results subject_filter module_filter w =
        .ok (hybrid_search semRaw enable_bm25 bm25 query n_results subject_filter
          module_filter w) ∨
      (hybrid_search semRaw enable_bm25 bm25 query n_results subject_filter module_filter w =
          failureResult query ∧
        ∃ e, hybridSearchCore semRaw enable_bm25 bm25 query n_results subject_filter
          module_filter w = .error e)) := by
  unfold hybrid_search
  cases hcore : hybridSearchCore semRaw enable_bm25 bm25 query n_results subject_filter
      module_filter w with
  | error e => exact ⟨rfl, rfl, rfl, Nat.zero_le _, Or.inr ⟨rfl, e, rfl⟩⟩
  | ok r =>
      have hcore0 := hcore
      unfold hybridSearchCore at hcore
      cases hfu : hybridFused semRaw enable_bm25 bm25 n_results subject_filter
          module_filter w with
      | error e =>
          rw [hfu] at hcore
          exact Except.noConfusion hcore
      | ok scored =>
          rw [hfu] at hcore
          have hr := Except.ok.inj hcore
          rw [← hr]
          refine ⟨by simp [mkSearchResult], by simp [mkSearchResult],
            by simp [mkSearchResult], ?_, Or.inl rfl⟩
          simp only [mkSearchResult, List.length_map, rankCandidates]
          exact List.length_take_le _ _

/-! ## The over-fetch cutoff (claim C9) -/

/-- Metadata for the seven-document C9 counterexample corpus. -/
def c9Mds : List Metadata :=
  [⟨some "d0", none, none, none, some 1, some 0, none⟩,
   ⟨some "d1", none, none, none, some 1, some 1, none⟩,
   ⟨some "d2", none, none, none, some 1, some 2, none⟩,
   ⟨some "d3", none, none, none, some 1, some 3, none⟩,
   ⟨some "d4", none, none, none, some 1, some 4, none⟩,
   ⟨some "d5", none, none, none, some 1, some 5, none⟩,
   ⟨some "d6", none, none, none, some 1, some 6, none⟩]

/-- Semantic response of the C9 counterexample: the top six candidates
(the full 3k over-fetch for the requested count 2); "d6" is not among
them. -/
def c9Raw : SemanticRaw :=
  ⟨[["d0", "d1", "d2", "d3", "d4", "d5"]],
   [c9Mds.take 6],
   [[PyFloat.fin 1, PyFloat.fin 2, PyFloat.fin 2, PyFloat.fin 2, PyFloat.fin 2,
     PyFloat.fin 2]]⟩

/-- BM25 state of the C9 counterexample: "d6" scores 10, every other
document scores 0. -/
def c9Bm : Bm25Index :=
  ⟨[0, 0, 0, 0, 0, 0, 10], ["d0", "d1", "d2", "d3", "d4", "d5", "d6"], c9Mds⟩

/-- C9, counterexample.  A corpus of seven documents in which document
"d6" scores highest on BM25 (raw score 10, all others 0) and is absent
from the semantic top set (which holds six candidates, the full 3k
over-fetch for the requested count 2): hybrid_search, at its default
semantic weight 0.7, DOES surface "d6" in its returned documents, through
the BM25 top set. -/
theorem claim_C9_counterexample :
    "d6" ∉ _safe_get_first c9Raw.documents ∧
    (∀ s ∈ c9Bm.scores, s ≤ 10) ∧
    c9Bm.scores.getD 6 0 = 10 ∧
    c9Bm.corpus.getD 6 "" = "d6" ∧
    "d6" ∈ (hybrid_search (.ok c9Raw) true (some c9Bm) "q" 2 none none).documents := by
  decide

/-- C9, amended.  The 3k over-fetch boundaries are hard cutoffs in the
following sense: every candidate hybrid_search returns comes from the
semantic top set or from the BM25 top set, and a candidate absent from the
semantic top set is credited semantic score 0 (the fusion never reaches
back into the corpus for the missing signal).  A document that scores
highest on BM25 but is absent from the semantic top set can still be
surfaced, via the BM25 top set (see the counterexample). -/
theorem claim_C9_hard_cutoff (raw : SemanticRaw) (idx : Bm25Index) (n_results : Nat)
    (subject_filter module_filter : Option String) (w : ℚ)
    (top : List Bm25Candidate) (scored : List (String × Candidate))
    (htop : bm25TopSet idx n_results subject_filter module_filter = .ok top)
    (hf : hybridFused (.ok raw) true (some idx) n_results subject_filter module_filter w =
      .ok scored) :
    ∀ r ∈ rankCandidates (scored.map Prod.snd) n_results,
      ((docId r.metadata ∈ (semTriples raw).map fun t => docId t.2.1) ∨
        (docId r.metadata ∈ top.map fun c => docId c.meta)) ∧
      ((docId r.metadata ∉ (semTriples raw).map fun t => docId t.2.1) →
        r.semantic_score = 0) := by
  have hs : applyHybrid (applyBm25 (addSemanticCandidates [] (semTriples raw)) top
      (pyMaxOr (top.map Bm25Candidate.score) 1)) w = scored := by
    have hf2 : (bm25TopSet idx n_results subject_filter module_filter).bind
        (fun top_bm25 => Except.ok (applyHybrid (applyBm25 (addSemanticCandidates []
          (semTriples raw)) top_bm25 (pyMaxOr (top_bm25.map Bm25Candidate.score) 1)) w)) =
        Except.ok scored := hf
    rw [htop] at hf2
    exact Except.ok.inj hf2
  subst hs
  intro r hr
  have h1 : r ∈ List.insertionSort candGE
      ((applyHybrid (applyBm25 (addSemanticCandidates [] (semTriples raw)) top
        (pyMaxOr (top.map Bm25Candidate.score) 1)) w).map Prod.snd) :=
    (List.take_sublist _ _).subset hr
  have h2 := (List.perm_insertionSort candGE _).subset h1
  obtain ⟨kv, hkv, hkv2⟩ := List.mem_map.mp h2
  have hKBM : KeyedByMeta (applyHybrid (applyBm25 (addSemanticCandidates []
      (semTriples raw)) top (pyMaxOr (top.map Bm25Candidate.score) 1)) w) :=
    keyedByMeta_applyHybrid _ _ (keyedByMeta_applyBm25 _ _ _
      (keyedByMeta_addSemanticCandidates _ [] (fun kv h => absurd h (List.not_mem_nil kv))))
  have hkey : kv.1 = docId r.metadata := by
    rw [hKBM kv hkv, hkv2]
  constructor
  · have hmemk : kv.1 ∈ dictKeys (applyHybrid (applyBm25 (addSemanticCandidates []
        (semTriples raw)) top (pyMaxOr (top.map Bm25Candidate.score) 1)) w) :=
      List.mem_map.mpr ⟨kv, hkv, rfl⟩
    rw [dictKeys_applyHybrid] at hmemk
    rcases mem_keys_applyBm25 hmemk with h3 | h3
    · rcases mem_keys_addSemanticCandidates h3 with h4 | h4
      · exact absurd h4 (by simp [dictKeys])
      · rw [← hkey]
        exact Or.inl h4
    · rw [← hkey]
      exact Or.inr h3
  · intro hnot
    have hSZ : SemZeroOutside ((semTriples raw).map fun t => docId t.2.1)
        (applyHybrid (applyBm25 (addSemanticCandidates [] (semTriples raw)) top
          (pyMaxOr (top.map Bm25Candidate.score) 1)) w) :=
      semZeroOutside_applyHybrid _ _ (semZeroOutside_applyBm25 _ _ _
        (semZeroOutside_semPass _))
    have hz := hSZ kv hkv (by rw [hkey]; exact hnot)
    rw [← hkv2]
    exact hz

/-- Metadata of the semantic-side document in the C9 witness. -/
def c9wMdA : Metadata := ⟨some "a.pdf", none, none, none, some 1, some 1, none⟩

/-- Metadata of the BM25-side document in the C9 witness. -/
def c9wMdB : Metadata := ⟨some "b.pdf", none, none, none, some 1, some 1, none⟩

/-- Semantic response of the C9 witness run. -/
def c9wRaw : SemanticRaw := ⟨[["doc a"]], [[c9wMdA]], [[PyFloat.fin 0]]⟩

/-- BM25 state of the C9 witness run. -/
def c9wIdx : Bm25Index := ⟨[0, 5], ["doc a", "doc b"], [c9wMdA, c9wMdB]⟩

/-- The BM25 top set of the C9 witness run. -/
def c9wTop : List Bm25Candidate :=
  [⟨1, 5, c9wMdB, "doc b"⟩, ⟨0, 0, c9wMdA, "doc a"⟩]

/-- The fused candidate dict of the C9 witness run. -/
def c9wScored : List (String × Candidate) :=
  [("a.pdf_p1_c1", ⟨"doc a", c9wMdA, 1, 0, 7 / 10⟩),
   ("b.pdf_p1_c1", ⟨"doc b", c9wMdB, 0, 1, 3 / 10⟩)]

/-! ## Idempotent ingestion (claim C5) -/

lemma collection_add_idem (es : List (String × StoredDoc))
    (acc : List (String × StoredDoc)) (h : (dictKeys acc).Nodup) :
    collection_add (collection_add acc es) es = collection_add acc es := by
  apply dict_ext
  · exact nodup_keys_foldl_dictSet es _ (nodup_keys_foldl_dictSet es acc h)
  · exact keys_foldl_dictSet_of_subset es _
      (fun e he => mem_keys_foldl_dictSet acc (List.mem_map.mpr ⟨e, he, rfl⟩))
  · intro k
    simp only [collection_add, lookup_foldl_dictSet]
    cases hfind : es.reverse.find? (fun e => e.1 == k) <;> rfl

/-- C5.  Ingesting the same PDF (same file_info and same extracted pages)
twice without clearing in between changes nothing after the first run:
the second ingestion produces the same chunk ids (the id is a function of
subject, module, file basename, page number and chunk number only),
returns the same count, and leaves the stored collection - and hence the
stored chunk count - exactly as after a single ingestion, because the
store inserts-or-replaces by id. -/
theorem claim_C5_idempotent_ingest (p : PDFProcessor) (embed : List Char → List ℚ)
    (fi : FileInfo) (pages : List PageData) (store : List (String × StoredDoc))
    (hwf : (dictKeys store).Nodup) :
    (ingest_pdf p embed fi pages (ingest_pdf p embed fi pages store).1).1 =
      (ingest_pdf p embed fi pages store).1 ∧
    (ingest_pdf p embed fi pages (ingest_pdf p embed fi pages store).1).2 =
      (ingest_pdf p embed fi pages store).2 ∧
    (ingest_pdf p embed fi pages (ingest_pdf p embed fi pages store).1).1.length =
      (ingest_pdf p embed fi pages store).1.length ∧
    (∀ fi1 fi2 : FileInfo, ∀ c1 c2 : Chunk, fi1.subject = fi2.subject →
      fi1.module = fi2.module → basename fi1.full_path = basename fi2.full_path →
      c1.page_number = c2.page_number → c1.chunk_number = c2.chunk_number →
      _chunk_id fi1 c1 = _chunk_id fi2 c2) := by
  have h1 : (ingest_pdf p embed fi pages (ingest_pdf p embed fi pages store).1).1 =
      (ingest_pdf p embed fi pages store).1 := by
    by_cases hch : process_pdf p pages = []
    · simp [ingest_pdf, hch]
    · simp only [ingest_pdf, if_neg hch]
      exact collection_add_idem _ _ hwf
  have h2 : (ingest_pdf p embed fi pages (ingest_pdf p embed fi pages store).1).2 =
      (ingest_pdf p embed fi pages store).2 := by
    by_cases hch : process_pdf p pages = []
    · simp [ingest_pdf, hch]
    · simp only [ingest_pdf, if_neg hch]
  refine ⟨h1, h2, congrArg List.length h1, ?_⟩
  intro fi1 fi2 c1 c2 hs hm hb hp hc
  simp [_chunk_id, hs, hm, hb, hp, hc]

/-- File info of the C5 witness. -/
def c5FiW : FileInfo := ⟨"data/S/M/f.pdf", some "S", some "M"⟩

/-- Extracted pages of the C5 witness: one page whose single sentence is
longer than the 50-character chunk filter. -/
def c5PagesW : List PageData :=
  [⟨("the quick brown fox jumps over the lazy dog near the river bank" : String).data,
    1, "f.pdf", "data/S/M/f.pdf", 1⟩]

/-- Witness for C5 at a concrete one-page ingestion into an empty store. -/
theorem claim_C5_witness :
    (ingest_pdf PDFProcessor.mkDefault (fun _ => []) c5FiW c5PagesW
        (ingest_pdf PDFProcessor.mkDefault (fun _ => []) c5FiW c5PagesW []).1).1 =
      (ingest_pdf PDFProcessor.mkDefault (fun _ => []) c5FiW c5PagesW []).1 ∧
    (ingest_pdf PDFProcessor.mkDefault (fun _ => []) c5FiW c5PagesW
        (ingest_pdf PDFProcessor.mkDefault (fun _ => []) c5FiW c5PagesW []).1).2 =
      (ingest_pdf PDFProcessor.mkDefault (fun _ => []) c5FiW c5PagesW []).2 ∧
    (ingest_pdf PDFProcessor.mkDefault (fun _ => []) c5FiW c5PagesW
        (ingest_pdf PDFProcessor.mkDefault (fun _ => []) c5FiW c5PagesW []).1).1.length =
      (ingest_pdf PDFProcessor.mkDefault (fun _ => []) c5FiW c5PagesW []).1.length ∧
    (∀ fi1 fi2 : FileInfo, ∀ c1 c2 : Chunk, fi1.subject = fi2.subject →
      fi1.module = fi2.module → basename fi1.full_path = basename fi2.full_path →
      c1.page_number = c2.page_number → c1.chunk_number = c2.chunk_number →
      _chunk_id fi1 c1 = _chunk_id fi2 c2) :=
  claim_C5_idempotent_ingest PDFProcessor.mkDefault (fun _ => []) c5FiW c5PagesW []
    (by decide)

/-! ## Chunk overlap (claim C6) -/

/-- C6, counterexample.  The claim says the overlap seeded after emitting
a chunk is the last chunk_overlap-proportional slice of tokens of that
chunk, so its amount varies with the chunk_overlap parameter.  On the
text "aaaa. bbbb. cccc." with chunk_size 10 the chunker emits a chunk and
seeds an overlap, yet the output with chunk_overlap 150 and with
chunk_overlap 0 is identical (with a 0-proportional slice the overlap
would have to be empty, but the second chunk visibly starts with the
whole previous chunk): the overlap is the fixed last-two-'.'-segments
slice and does not vary with chunk_overlap. -/
theorem claim_C6_counterexample :
    semantic_chunking 10 150 ("aaaa. bbbb. cccc." : String).data =
      [("aaaa bbbb" : String).data, ("aaaa bbbb. cccc" : String).data] ∧
    semantic_chunking 10 0 ("aaaa. bbbb. cccc." : String).data =
      semantic_chunking 10 150 ("aaaa. bbbb. cccc." : String).data := by
  decide

/-- C6, amended.  The output of semantic_chunking is independent of the
chunk_overlap parameter (the body never reads it), and whenever adding
the next sentence would exceed chunk_size with a non-empty buffer, the
emitted chunk is the stripped buffer and the new buffer is seeded with
the last two '.'-separated segments of the old buffer joined by dot
space, followed by the new sentence - a fixed-size overlap rule, not a
chunk_overlap-proportional one. -/
theorem claim_C6_fixed_overlap (chunk_size co co' : Nat) (text : List Char)
    (chunks : List (List Char)) (current sentence : List Char)
    (hne : current ≠ []) (hover : current.length + sentence.length > chunk_size) :
    semantic_chunking chunk_size co text = semantic_chunking chunk_size co' text ∧
    chunkStep chunk_size (chunks, current) sentence =
      (chunks ++ [pyStrip current],
       joinDotSpace (lastTwo (splitKeepEmpty (fun c => c = '.') current [])) ++
         '.' :: ' ' :: sentence) := by
  refine ⟨rfl, ?_⟩
  simp only [chunkStep]
  rw [if_pos ⟨hover, hne⟩]

/-- Witness for C6 at the counterexample text and a concrete overfull
buffer. -/
theorem claim_C6_witness :
    semantic_chunking 10 150 ("aaaa. bbbb. cccc." : String).data =
      semantic_chunking 10 0 ("aaaa. bbbb. cccc." : String).data ∧
    chunkStep 10 ([], ("aaaa bbbb" : String).data) ("cccc" : String).data =
      ([pyStrip ("aaaa bbbb" : String).data],
       joinDotSpace (lastTwo (splitKeepEmpty (fun c => c = '.')
           ("aaaa bbbb" : String).data [])) ++
         '.' :: ' ' :: ("cccc" : String).data) :=
  claim_C6_fixed_overlap 10 150 0 ("aaaa. bbbb. cccc." : String).data []
    ("aaaa bbbb" : String).data ("cccc" : String).data (by decide) (by decide)

/-- Witness for C9 at a two-document corpus, instantiated at the one
candidate the run returns. -/
theorem claim_C9_witness :
    ((docId (⟨"doc a", c9wMdA, 1, 0, 7 / 10⟩ : Candidate).metadata ∈
        (semTriples c9wRaw).map fun t => docId t.2.1) ∨
      (docId (⟨"doc a", c9wMdA, 1, 0, 7 / 10⟩ : Candidate).metadata ∈
        c9wTop.map fun c => docId c.meta)) ∧
    ((docId (⟨"doc a", c9wMdA, 1, 0, 7 / 10⟩ : Candidate).metadata ∉
        (semTriples c9wRaw).map fun t => docId t.2.1) →
      (⟨"doc a", c9wMdA, 1, 0, 7 / 10⟩ : Candidate).semantic_score = 0) :=
  claim_C9_hard_cutoff c9wRaw c9wIdx 1 none none (7 / 10) c9wTop c9wScored
    (by decide) (by decide) ⟨"doc a", c9wMdA, 1, 0, 7 / 10⟩ (by decide)

end Athena
